import Mathlib

/-!
# Verification of the rust-mines board engine

Shallow embedding of `src/game.rs` (the Board Engine of the XP20/rust-mines
repository) together with proofs about its behaviour.

Modelling conventions:
* `usize` grid sizes, coordinates and indices become `Nat`; the `u8` field
  `mine_count` also becomes `Nat` (its value is a neighbor count, at most 8,
  so no wrap-around can occur).
* The `i32` coordinates accepted by `set_selected` become `Int`, and the
  `width as i32` / `height as i32` casts are modelled exactly by `usizeToI32`.
* The process-wide random generator used by `Game::new` is modelled as an
  oracle `kinds : Nat → TileType` giving the tile kind drawn for index `i`.
* `println!`-based win/loss signalling (`end_game`) is modelled by returning
  the list of emitted messages alongside the new state.
* The recursion of `flood_reveal` is embedded with a fuel parameter; the
  entry point supplies `hiddenCount g + 1` fuel, which the proofs show is
  never exhausted (each nested call strictly decreases the number of Hidden
  tiles).
-/

inductive TileVisibility where
  | Visible
  | Marked
  | Hidden
deriving DecidableEq, Repr

inductive TileType where
  | Safe
  | Mine
deriving DecidableEq, Repr

def TileVisibility.isHidden : TileVisibility → Bool
  | .Hidden => true
  | _ => false

def TileVisibility.isMarked : TileVisibility → Bool
  | .Marked => true
  | _ => false

def TileType.isMine : TileType → Bool
  | .Mine => true
  | _ => false

def TileType.isSafe : TileType → Bool
  | .Safe => true
  | _ => false

structure Tile where
  x : Nat
  y : Nat
  tile_type : TileType
  tile_visibility : TileVisibility
  mine_count : Nat
deriving DecidableEq, Repr

instance : Inhabited Tile :=
  ⟨⟨0, 0, TileType.Safe, TileVisibility.Hidden, 0⟩⟩

/-- The neighbor list of a cell `(x, y)` in a `width × height` grid, with the
eight candidate pushes in exactly the order of `Tile::neighbors`. -/
def nbrs (width height x y : Nat) : List (Nat × Nat) :=
  (if x > 0 then [(x - 1, y)] else []) ++
  (if y > 0 then [(x, y - 1)] else []) ++
  (if x < width - 1 then [(x + 1, y)] else []) ++
  (if y < height - 1 then [(x, y + 1)] else []) ++
  (if x > 0 ∧ y > 0 then [(x - 1, y - 1)] else []) ++
  (if x > 0 ∧ y < height - 1 then [(x - 1, y + 1)] else []) ++
  (if x < width - 1 ∧ y > 0 then [(x + 1, y - 1)] else []) ++
  (if x < width - 1 ∧ y < height - 1 then [(x + 1, y + 1)] else [])

/-- `Tile::neighbors`: reads the tile's own stored coordinates. -/
def Tile.neighbors (t : Tile) (width height : Nat) : List (Nat × Nat) :=
  nbrs width height t.x t.y

structure Game where
  width : Nat
  height : Nat
  tiles : List Tile
  selected : Nat × Nat
deriving DecidableEq, Repr

/-- Reading `tiles[i]`; every access the engine performs is in bounds, the
default is only there to make the function total. -/
def tileAt (ts : List Tile) (i : Nat) : Tile :=
  ts.getD i default

/-- Linear index of coordinate `(x, y)`, as in the source: `x + y * width`. -/
def Game.toIdx (g : Game) (x y : Nat) : Nat :=
  x + y * g.width

def Game.visAt (g : Game) (x y : Nat) : TileVisibility :=
  (tileAt g.tiles (g.toIdx x y)).tile_visibility

def Game.typeAt (g : Game) (x y : Nat) : TileType :=
  (tileAt g.tiles (g.toIdx x y)).tile_type

def Game.mcAt (g : Game) (x y : Nat) : Nat :=
  (tileAt g.tiles (g.toIdx x y)).mine_count

/-- First pass of `Game::new`: lay the tiles out at `x = i % width`,
`y = i / width`, Hidden, count 0, with kinds drawn from the random oracle. -/
def initialTiles (width height : Nat) (kinds : Nat → TileType) : List Tile :=
  (List.range (height * width)).map (fun i =>
    { x := i % width, y := i / width, tile_type := kinds i,
      tile_visibility := TileVisibility.Hidden, mine_count := 0 })

/-- The inner loop of the second pass of `Game::new`: count the Mine-kind
tiles among `t`'s neighbors, reading from the current vector `ts`. -/
def neighborMineCount (ts : List Tile) (width height : Nat) (t : Tile) : Nat :=
  (t.neighbors width height).foldl (fun c p =>
    if (tileAt ts (p.1 + p.2 * width)).tile_type.isMine then c + 1 else c) 0

/-- One iteration of the second pass of `Game::new`: store the recomputed
neighbor-mine count of tile `i` back into the vector. -/
def countStep (width height : Nat) (ts : List Tile) (i : Nat) : List Tile :=
  let t := tileAt ts i
  ts.set i { t with mine_count := neighborMineCount ts width height t }

/-- Second pass of `Game::new`: for each index in order, recompute the
tile's `mine_count` in place (reading neighbors from the partially updated
vector, exactly as the source loop does). -/
def countPass (width height : Nat) (ts0 : List Tile) : List Tile :=
  (List.range ts0.length).foldl (countStep width height) ts0

/-- `Game::new`: generate the tiles, fill in the adjacency counts, select
`(0, 0)`. -/
def Game.new (width height : Nat) (kinds : Nat → TileType) : Game :=
  { width := width, height := height,
    tiles := countPass width height (initialTiles width height kinds),
    selected := (0, 0) }

/-- `Game::end_game` prints a message; we model the print as the emitted
event list. -/
def Game.end_game (_g : Game) (message : String) : List String :=
  [message]

/-- `Game::check_game_won`: emits the win message when no tile is both
Hidden and Safe. -/
def Game.check_game_won (g : Game) : List String :=
  if !(g.tiles.any fun t => t.tile_visibility.isHidden && t.tile_type.isSafe)
  then g.end_game "Game won ^-^"
  else []

/-- `Game::toggle_mark`: Hidden ↔ Marked on the selected tile, Visible
unchanged, then the win check. -/
def Game.toggle_mark (g : Game) : Game × List String :=
  let x := g.selected.1
  let y := g.selected.2
  let t := tileAt g.tiles (x + y * g.width)
  let g' : Game :=
    match t.tile_visibility with
    | TileVisibility.Hidden =>
        let t' : Tile := { t with tile_visibility := TileVisibility.Marked }
        { g with tiles := g.tiles.set (x + y * g.width) t' }
    | TileVisibility.Marked =>
        let t' : Tile := { t with tile_visibility := TileVisibility.Hidden }
        { g with tiles := g.tiles.set (x + y * g.width) t' }
    | TileVisibility.Visible => g
  (g', g'.check_game_won)

/-- The number of Hidden tiles; used as fuel for the flood recursion. -/
def hiddenCount (g : Game) : Nat :=
  g.tiles.countP (fun t => t.tile_visibility.isHidden)

/-- The `for (x, y) in tile.neighbors(..)` loop body of `flood_reveal`:
fold the recursive call over the neighbor list, re-checking the
Hidden-and-Safe guard against the current state before each call. -/
def floodFold (f : Game → Nat → Nat → Game) : Game → List (Nat × Nat) → Game
  | g, [] => g
  | g, p :: rest =>
      let nt := tileAt g.tiles (p.1 + p.2 * g.width)
      if nt.tile_visibility.isHidden && nt.tile_type.isSafe
      then floodFold f (f g p.1 p.2) rest
      else floodFold f g rest

/-- `Game::flood_reveal`, fueled: set the tile Visible, stop if its count is
positive, otherwise recurse into every currently Hidden Safe neighbor. -/
def Game.flood_reveal_go : Nat → Game → Nat → Nat → Game
  | 0, g, _, _ => g
  | (fuel + 1), g, x, y =>
      let t := tileAt g.tiles (x + y * g.width)
      let t' : Tile := { t with tile_visibility := TileVisibility.Visible }
      let g1 : Game := { g with tiles := g.tiles.set (x + y * g.width) t' }
      if t.mine_count ≠ 0 then g1
      else floodFold (Game.flood_reveal_go fuel) g1 (t.neighbors g1.width g1.height)

/-- `Game::flood_reveal`: the source recursion terminates because every
nested call targets a currently Hidden tile and immediately reveals it, so
`hiddenCount g + 1` fuel is never exhausted. -/
def Game.flood_reveal (g : Game) (x y : Nat) : Game :=
  Game.flood_reveal_go (hiddenCount g + 1) g x y

/-- `Game::click_tile`: early return on a Marked tile (no win check), else
reveal; a Mine ends the game in loss, a Safe tile flood-reveals; then the
win check. -/
def Game.click_tile (g : Game) : Game × List String :=
  let x := g.selected.1
  let y := g.selected.2
  let t := tileAt g.tiles (x + y * g.width)
  if t.tile_visibility.isMarked then (g, [])
  else
    let t' : Tile := { t with tile_visibility := TileVisibility.Visible }
    let g1 : Game := { g with tiles := g.tiles.set (x + y * g.width) t' }
    match t.tile_type with
    | TileType.Mine => (g1, g1.end_game "You exploded >_<" ++ g1.check_game_won)
    | TileType.Safe =>
        let g2 := g1.flood_reveal x y
        (g2, g2.check_game_won)

/-- The exact value of `width as i32` / `height as i32`: truncate the usize
to 32 bits, then reinterpret as two's-complement. -/
def usizeToI32 (n : Nat) : Int :=
  let m : Nat := n % 2 ^ 32
  if m < 2 ^ 31 then (m : Int) else (m : Int) - 2 ^ 32

/-- `Game::set_selected`: update only when both `i32` coordinates pass the
bounds test against the cast width/height; otherwise leave the state alone. -/
def Game.set_selected (g : Game) (pos : Int × Int) : Game :=
  if 0 ≤ pos.1 ∧ pos.1 < usizeToI32 g.width ∧ 0 ≤ pos.2 ∧ pos.2 < usizeToI32 g.height
  then { g with selected := (pos.1.toNat, pos.2.toNat) }
  else g

/-- The three commands the presentation layer can send to the engine. -/
inductive Cmd where
  | move (pos : Int × Int)
  | mark
  | reveal
deriving DecidableEq, Repr

def Game.step (g : Game) (c : Cmd) : Game :=
  match c with
  | Cmd.move p => g.set_selected p
  | Cmd.mark => (g.toggle_mark).1
  | Cmd.reveal => (g.click_tile).1

def Game.run (g : Game) (cs : List Cmd) : Game :=
  cs.foldl Game.step g

/-! ## Specification-side definitions -/

/-- `(a, b)` is one of the eight compass-direction cells (orthogonal or
diagonal) around `(x, y)`. -/
def adjacentB (x y a b : Nat) : Bool :=
  (a + 1 == x || a == x || a == x + 1) &&
  (b + 1 == y || b == y || b == y + 1) &&
  !(a == x && b == y)

/-- Corner cell of a `width × height` grid. -/
def isCornerTile (width height x y : Nat) : Prop :=
  (x = 0 ∨ x = width - 1) ∧ (y = 0 ∨ y = height - 1)

/-- Cell on the boundary of a `width × height` grid. -/
def isEdgeTile (width height x y : Nat) : Prop :=
  x = 0 ∨ x = width - 1 ∨ y = 0 ∨ y = height - 1

/-- The structural well-formedness every board built by `Game.new` enjoys:
positive width, a dense `height * width` tile vector, and each tile storing
its own linear-index coordinates. -/
def Coherent (g : Game) : Prop :=
  0 < g.width ∧ g.tiles.length = g.height * g.width ∧
  ∀ i, i < g.tiles.length →
    (tileAt g.tiles i).x = i % g.width ∧ (tileAt g.tiles i).y = i / g.width

/-- The number of Mine-kind tiles of the board that sit on one of the eight
compass-adjacent cells of `(x, y)` — the brute-force recount demanded by the
spec. -/
def specMineCount (g : Game) (x y : Nat) : Nat :=
  ((List.range g.tiles.length).filter (fun j =>
    adjacentB x y (tileAt g.tiles j).x (tileAt g.tiles j).y &&
    (tileAt g.tiles j).tile_type.isMine)).length

/-- Every tile's stored `mine_count` agrees with the brute-force recount. -/
def mineCountsAccurate (g : Game) : Prop :=
  ∀ i, i < g.tiles.length →
    (tileAt g.tiles i).mine_count =
      specMineCount g (tileAt g.tiles i).x (tileAt g.tiles i).y

/-- The win condition: no tile is simultaneously Hidden and Safe-kind. -/
def noHiddenSafe (g : Game) : Prop :=
  ¬ ∃ t, t ∈ g.tiles ∧ t.tile_visibility = TileVisibility.Hidden ∧
    t.tile_type = TileType.Safe

/-- The flood closure of the spec, computed over the pre-state `g`: the
clicked cell itself, plus every cell reachable by repeatedly stepping from a
zero-count cell to a compass neighbor that is Hidden and Safe in `g`. -/
inductive FloodReach (g : Game) (x0 y0 : Nat) : Nat → Nat → Prop where
  | start : FloodReach g x0 y0 x0 y0
  | step {x y a b : Nat} : FloodReach g x0 y0 x y → g.mcAt x y = 0 →
      (a, b) ∈ nbrs g.width g.height x y →
      g.visAt a b = TileVisibility.Hidden → g.typeAt a b = TileType.Safe →
      FloodReach g x0 y0 a b

/-- Two boards with identical dimensions and identical tiles up to
visibility: every engine command only ever rewrites `tile_visibility` (and
the cursor), so this relation is preserved by all of them. -/
def SameSkeleton (g g' : Game) : Prop :=
  g.width = g'.width ∧ g.height = g'.height ∧
  g.tiles.length = g'.tiles.length ∧
  ∀ j, (tileAt g.tiles j).x = (tileAt g'.tiles j).x ∧
       (tileAt g.tiles j).y = (tileAt g'.tiles j).y ∧
       (tileAt g.tiles j).tile_type = (tileAt g'.tiles j).tile_type ∧
       (tileAt g.tiles j).mine_count = (tileAt g'.tiles j).mine_count

/-- Invariant tying an intermediate flood state `g` back to the pre-state
`g0`: same skeleton, and any visibility change is a reveal of a cell in the
flood closure rooted at `(x0, y0)`. -/
def Evolves (g0 : Game) (x0 y0 : Nat) (g : Game) : Prop :=
  SameSkeleton g0 g ∧
  ∀ a b, a < g0.width → b < g0.height →
    g.visAt a b = g0.visAt a b ∨
    (g.visAt a b = TileVisibility.Visible ∧ FloodReach g0 x0 y0 a b)

/-- Every zero-count cell newly revealed between `gI` and `gF` has all of
its Hidden-Safe (in `g0`) neighbors revealed in `gF`. -/
def NewClosed (g0 gI gF : Game) : Prop :=
  ∀ u v, u < g0.width → v < g0.height →
    gF.visAt u v = TileVisibility.Visible →
    gI.visAt u v ≠ TileVisibility.Visible →
    g0.mcAt u v = 0 →
    ∀ p, p ∈ nbrs g0.width g0.height u v →
      g0.visAt p.1 p.2 = TileVisibility.Hidden →
      g0.typeAt p.1 p.2 = TileType.Safe →
      gF.visAt p.1 p.2 = TileVisibility.Visible

/-- Induction statement for `flood_reveal_go` at a given fuel: from any
intermediate state evolved from `g0` and any cell of the flood closure, the
call preserves the evolution invariant, does not increase the Hidden count,
reveals its target, only flips Hidden tiles (or its target) to Visible, and
closes the zero-count region it reveals. -/
def GoSpec (g0 : Game) (x0 y0 : Nat) (fuel : Nat) : Prop :=
  ∀ g x y, Evolves g0 x0 y0 g → FloodReach g0 x0 y0 x y →
    x < g0.width → y < g0.height →
    (hiddenCount g < fuel ∨
      (g.visAt x y = TileVisibility.Hidden ∧ hiddenCount g ≤ fuel)) →
    Evolves g0 x0 y0 (Game.flood_reveal_go fuel g x y) ∧
    hiddenCount (Game.flood_reveal_go fuel g x y) ≤ hiddenCount g ∧
    (Game.flood_reveal_go fuel g x y).visAt x y = TileVisibility.Visible ∧
    (∀ a b, a < g0.width → b < g0.height → g.visAt a b = TileVisibility.Visible →
      (Game.flood_reveal_go fuel g x y).visAt a b = TileVisibility.Visible) ∧
    (∀ a b, a < g0.width → b < g0.height →
      (Game.flood_reveal_go fuel g x y).visAt a b ≠ g.visAt a b →
      (g.visAt a b = TileVisibility.Hidden ∨ (a = x ∧ b = y)) ∧
        (Game.flood_reveal_go fuel g x y).visAt a b = TileVisibility.Visible) ∧
    (g0.mcAt x y = 0 →
      ∀ p, p ∈ nbrs g0.width g0.height x y →
        g.visAt p.1 p.2 = TileVisibility.Hidden →
        g0.typeAt p.1 p.2 = TileType.Safe →
        (Game.flood_reveal_go fuel g x y).visAt p.1 p.2 = TileVisibility.Visible) ∧
    NewClosed g0 g (Game.flood_reveal_go fuel g x y)

/-- Invariant for the neighbor loop of `flood_reveal`: folding the guarded
recursive call over a list of legitimate candidate cells preserves the
evolution invariant, reveals every candidate that was Hidden and Safe, and
closes everything it reveals. -/
def ListSpec (g0 : Game) (x0 y0 : Nat) (fuel : Nat) (ps : List (Nat × Nat)) : Prop :=
  ∀ g, Evolves g0 x0 y0 g → hiddenCount g ≤ fuel →
    (∀ p, p ∈ ps → p.1 < g0.width ∧ p.2 < g0.height ∧
      (g0.visAt p.1 p.2 = TileVisibility.Hidden →
        g0.typeAt p.1 p.2 = TileType.Safe → FloodReach g0 x0 y0 p.1 p.2)) →
    Evolves g0 x0 y0 (floodFold (Game.flood_reveal_go fuel) g ps) ∧
    hiddenCount (floodFold (Game.flood_reveal_go fuel) g ps) ≤ hiddenCount g ∧
    (∀ a b, a < g0.width → b < g0.height → g.visAt a b = TileVisibility.Visible →
      (floodFold (Game.flood_reveal_go fuel) g ps).visAt a b = TileVisibility.Visible) ∧
    (∀ a b, a < g0.width → b < g0.height →
      (floodFold (Game.flood_reveal_go fuel) g ps).visAt a b ≠ g.visAt a b →
      g.visAt a b = TileVisibility.Hidden ∧
        (floodFold (Game.flood_reveal_go fuel) g ps).visAt a b = TileVisibility.Visible) ∧
    (∀ p, p ∈ ps → g.visAt p.1 p.2 = TileVisibility.Hidden →
      g0.typeAt p.1 p.2 = TileType.Safe →
      (floodFold (Game.flood_reveal_go fuel) g ps).visAt p.1 p.2 = TileVisibility.Visible) ∧
    NewClosed g0 g (floodFold (Game.flood_reveal_go fuel) g ps)

/-! ## Concrete boards used by witnesses and counterexamples -/

/-- A 1×1 board whose only tile is Safe and Marked. -/
def markedBoard : Game :=
  { width := 1, height := 1,
    tiles := [{ x := 0, y := 0, tile_type := TileType.Safe,
                tile_visibility := TileVisibility.Marked, mine_count := 0 }],
    selected := (0, 0) }

/-- A 2×1 board with a Hidden Mine at `(1, 0)` selected. -/
def mineBoard : Game :=
  { width := 2, height := 1,
    tiles := [{ x := 0, y := 0, tile_type := TileType.Safe,
                tile_visibility := TileVisibility.Hidden, mine_count := 1 },
              { x := 1, y := 0, tile_type := TileType.Mine,
                tile_visibility := TileVisibility.Hidden, mine_count := 0 }],
    selected := (0, 0) }

/-- The 2×1 board of `mineBoard` with the Mine at `(1, 0)` selected. -/
def mineSelBoard : Game :=
  { width := 2, height := 1,
    tiles := [{ x := 0, y := 0, tile_type := TileType.Safe,
                tile_visibility := TileVisibility.Hidden, mine_count := 1 },
              { x := 1, y := 0, tile_type := TileType.Mine,
                tile_visibility := TileVisibility.Hidden, mine_count := 0 }],
    selected := (1, 0) }

/-- A 1×1 board whose only tile is Safe and Hidden. -/
def oneSafeBoard : Game :=
  { width := 1, height := 1,
    tiles := [{ x := 0, y := 0, tile_type := TileType.Safe,
                tile_visibility := TileVisibility.Hidden, mine_count := 0 }],
    selected := (0, 0) }

/-- Kind oracle placing a single Mine at index 8 of a 3×3 grid. -/
def kinds33 : Nat → TileType :=
  fun i => if i = 8 then TileType.Mine else TileType.Safe

/-- A generated 3×3 board with one Mine in the corner `(2, 2)`. -/
def board33 : Game := Game.new 3 3 kinds33

/-- Kind oracle placing a single Mine at index 3 of a 2×2 grid. -/
def kinds22 : Nat → TileType :=
  fun i => if i = 3 then TileType.Mine else TileType.Safe

/-! ## Basic lemmas about the embedding -/

theorem isHidden_eq_true (v : TileVisibility) :
    v.isHidden = true ↔ v = TileVisibility.Hidden := by
  cases v <;> simp [TileVisibility.isHidden]

theorem isMarked_eq_true (v : TileVisibility) :
    v.isMarked = true ↔ v = TileVisibility.Marked := by
  cases v <;> simp [TileVisibility.isMarked]

theorem isMine_eq_true (k : TileType) :
    k.isMine = true ↔ k = TileType.Mine := by
  cases k <;> simp [TileType.isMine]

theorem isSafe_eq_true (k : TileType) :
    k.isSafe = true ↔ k = TileType.Safe := by
  cases k <;> simp [TileType.isSafe]

theorem tileAt_set_self (l : List Tile) (i : Nat) (t : Tile) (h : i < l.length) :
    tileAt (l.set i t) i = t := by
  simp [tileAt, List.getD_eq_getElem?_getD, List.getElem?_set_self h]

theorem tileAt_set_ne (l : List Tile) (i j : Nat) (t : Tile) (h : i ≠ j) :
    tileAt (l.set i t) j = tileAt l j := by
  simp [tileAt, List.getD_eq_getElem?_getD, List.getElem?_set_ne h]

theorem tileAt_mem (l : List Tile) (i : Nat) (h : i < l.length) :
    tileAt l i ∈ l := by
  rw [tileAt, List.getD_eq_getElem l default h]
  exact List.getElem_mem h

/-! ## Claim C3: the win check -/

theorem check_game_won_spec (g : Game) :
    g.check_game_won = ["Game won ^-^"] ↔ noHiddenSafe g := by
  rw [Game.check_game_won, Game.end_game]
  rcases hb : g.tiles.any fun t => t.tile_visibility.isHidden && t.tile_type.isSafe with _ | _
  · refine iff_of_true rfl ?_
    rw [List.any_eq_false] at hb
    rintro ⟨t, ht, h1, h2⟩
    have hnt := hb t ht
    rw [Bool.and_eq_true, isHidden_eq_true, isSafe_eq_true] at hnt
    exact hnt ⟨h1, h2⟩
  · refine iff_of_false (by simp) ?_
    rw [List.any_eq_true] at hb
    obtain ⟨t, ht, hts⟩ := hb
    rw [Bool.and_eq_true, isHidden_eq_true, isSafe_eq_true] at hts
    exact fun hn => hn ⟨t, ht, hts.1, hts.2⟩

/-- C3: `check_game_won` emits the win signal if and only if no tile is
simultaneously Hidden and Safe-kind; a Safe tile that is Marked is not
Hidden, so it never blocks the win. -/
theorem check_game_won_iff_no_hidden_safe (g : Game) :
    g.check_game_won = ["Game won ^-^"] ↔ noHiddenSafe g :=
  check_game_won_spec g

/-! ## Claim C6: reveal on a Marked tile is a no-op -/

/-- C6: when the selected tile is Marked, `click_tile` returns the board
unchanged (the tile stays Marked, no visibility changes) and emits no
signal at all. -/
theorem click_tile_marked_noop (g : Game)
    (h : (tileAt g.tiles (g.selected.1 + g.selected.2 * g.width)).tile_visibility =
      TileVisibility.Marked) :
    g.click_tile = (g, []) := by
  rw [Game.click_tile]
  simp [h, TileVisibility.isMarked]

/-- Witness for C6 on a concrete 1×1 board with a Marked tile. -/
theorem click_tile_marked_noop_witness :
    (tileAt markedBoard.tiles
        (markedBoard.selected.1 + markedBoard.selected.2 * markedBoard.width)).tile_visibility =
      TileVisibility.Marked ∧
    markedBoard.click_tile = (markedBoard, []) :=
  ⟨by decide, click_tile_marked_noop markedBoard (by decide)⟩

/-! ## Claim C9: zero-sized board creation -/

/-- C9 counterexample: creating a board with width 0 does not fail with a
configuration error — `Game::new` performs no validation and silently
returns a degenerate board with an empty tile vector. -/
theorem new_zero_width_constructs_board :
    Game.new 0 5 (fun _ => TileType.Safe) =
      { width := 0, height := 5, tiles := [], selected := (0, 0) } := by
  rfl

/-- C9 amended: board creation with a zero width or height silently
constructs a degenerate board with an empty tile vector (no rejection, no
panic). -/
theorem new_zero_size_silent (w h : Nat) (kinds : Nat → TileType)
    (hz : w = 0 ∨ h = 0) :
    (Game.new w h kinds).tiles = [] ∧ (Game.new w h kinds).width = w ∧
      (Game.new w h kinds).height = h ∧ (Game.new w h kinds).selected = (0, 0) := by
  have hz' : h * w = 0 := by rcases hz with rfl | rfl <;> simp
  simp [Game.new, countPass, initialTiles, hz']

/-- Witness for the amended C9 at width 0, height 5. -/
theorem new_zero_size_silent_witness :
    ((0 : Nat) = 0 ∨ (5 : Nat) = 0) ∧
      ((Game.new 0 5 (fun _ => TileType.Safe)).tiles = [] ∧
       (Game.new 0 5 (fun _ => TileType.Safe)).width = 0 ∧
       (Game.new 0 5 (fun _ => TileType.Safe)).height = 5 ∧
       (Game.new 0 5 (fun _ => TileType.Safe)).selected = (0, 0)) :=
  ⟨Or.inl rfl, new_zero_size_silent 0 5 (fun _ => TileType.Safe) (Or.inl rfl)⟩

/-! ## Claim C8: cursor movement bounds -/

theorem usizeToI32_eq_of_lt (n : Nat) (h : n < 2 ^ 31) : usizeToI32 n = n := by
  have h32 : n % 2 ^ 32 = n := Nat.mod_eq_of_lt (by omega)
  simp only [usizeToI32, h32]
  rw [if_pos h]

/-- C8: under exact `i32` cast semantics (the grid dimensions fit in `i32`,
as any constructible board's do), `set_selected` updates the cursor exactly
when both coordinates lie in `[0,width) × [0,height)`, and otherwise leaves
the whole board — cursor included — unchanged (ignored, not clamped). -/
theorem set_selected_in_bounds_or_ignored (g : Game) (p : Int × Int)
    (hw : g.width < 2 ^ 31) (hh : g.height < 2 ^ 31) :
    ((0 ≤ p.1 ∧ p.1 < (g.width : Int) ∧ 0 ≤ p.2 ∧ p.2 < (g.height : Int)) →
      g.set_selected p = { g with selected := (p.1.toNat, p.2.toNat) }) ∧
    (¬ (0 ≤ p.1 ∧ p.1 < (g.width : Int) ∧ 0 ≤ p.2 ∧ p.2 < (g.height : Int)) →
      g.set_selected p = g) := by
  rw [Game.set_selected, usizeToI32_eq_of_lt g.width hw, usizeToI32_eq_of_lt g.height hh]
  constructor
  · intro hin; rw [if_pos hin]
  · intro hout; rw [if_neg hout]

/-- Witness for C8: a 2×1 board, an in-range move to `(1, 0)`. -/
theorem set_selected_in_bounds_or_ignored_witness :
    (mineBoard.width < 2 ^ 31 ∧ mineBoard.height < 2 ^ 31) ∧
    (((0 ≤ (1 : Int) ∧ (1 : Int) < (mineBoard.width : Int) ∧ 0 ≤ (0 : Int) ∧
        (0 : Int) < (mineBoard.height : Int)) →
      mineBoard.set_selected (1, 0) = { mineBoard with selected := ((1 : Int).toNat, (0 : Int).toNat) }) ∧
    (¬ (0 ≤ (1 : Int) ∧ (1 : Int) < (mineBoard.width : Int) ∧ 0 ≤ (0 : Int) ∧
        (0 : Int) < (mineBoard.height : Int)) →
      mineBoard.set_selected (1, 0) = mineBoard)) :=
  ⟨⟨by decide, by decide⟩,
    set_selected_in_bounds_or_ignored mineBoard (1, 0) (by decide) (by decide)⟩

/-! ## Neighbor enumeration: characterization, distinctness, counts -/

theorem mem_ite_single {α : Type} (c : Prop) [Decidable c] (v a : α) :
    (a ∈ if c then [v] else []) ↔ c ∧ a = v := by
  split
  case isTrue h => simp [h]
  case isFalse h => simp [h]

theorem nodup_ite_single {α : Type} (c : Prop) [Decidable c] (v : α) :
    (if c then [v] else ([] : List α)).Nodup := by
  split <;> simp

theorem adjacentB_eq_true (x y a b : Nat) :
    adjacentB x y a b = true ↔
      ((a + 1 = x ∨ a = x ∨ a = x + 1) ∧ (b + 1 = y ∨ b = y ∨ b = y + 1) ∧
        ¬(a = x ∧ b = y)) := by
  simp only [adjacentB, Bool.and_eq_true, Bool.or_eq_true, beq_iff_eq,
    Bool.not_eq_true', Bool.and_eq_false_iff, beq_eq_false_iff_ne, ne_eq]
  tauto

set_option maxHeartbeats 2000000 in
theorem mem_nbrs (width height x y a b : Nat) (hx : x < width) (hy : y < height) :
    ((a, b) ∈ nbrs width height x y) ↔
      (a < width ∧ b < height ∧ adjacentB x y a b = true) := by
  rcases x with _ | x <;> rcases y with _ | y <;>
    simp only [nbrs, List.mem_append, mem_ite_single, Prod.mk.injEq,
      adjacentB_eq_true, Nat.add_sub_cancel, Nat.succ_sub_one] <;>
    omega

theorem nbrs_self_not_mem (width height x y : Nat) :
    (x, y) ∉ nbrs width height x y := by
  simp only [nbrs, List.mem_append, mem_ite_single, Prod.mk.injEq, not_or]
  omega

theorem count_ite_single {α : Type} [DecidableEq α] (c : Prop) [Decidable c] (v a : α) :
    (if c then [v] else []).count a = if c ∧ a = v then 1 else 0 := by
  by_cases hc : c
  · by_cases hav : a = v
    · simp [hc, hav]
    · have hva : ¬ v = a := fun h => hav h.symm
      simp [hc, hav, List.count_singleton', hva]
  · simp [hc]

set_option maxHeartbeats 1000000 in
theorem nbrs_nodup (width height x y : Nat) : (nbrs width height x y).Nodup := by
  rw [List.nodup_iff_count_le_one]
  intro p
  obtain ⟨a, b⟩ := p
  simp only [nbrs, List.count_append, count_ite_single, Prod.mk.injEq]
  split_ifs <;> omega

theorem nbrs_length (width height x y : Nat) :
    (nbrs width height x y).length =
      (if x > 0 then 1 else 0) + (if y > 0 then 1 else 0) +
      (if x < width - 1 then 1 else 0) + (if y < height - 1 then 1 else 0) +
      (if x > 0 ∧ y > 0 then 1 else 0) + (if x > 0 ∧ y < height - 1 then 1 else 0) +
      (if x < width - 1 ∧ y > 0 then 1 else 0) +
      (if x < width - 1 ∧ y < height - 1 then 1 else 0) := by
  simp only [nbrs, List.length_append, apply_ite List.length,
    List.length_singleton, List.length_nil]

set_option maxHeartbeats 1000000 in
theorem nbrs_length_corner (w h x y : Nat) (hx : x < w) (hy : y < h)
    (h2w : 2 ≤ w) (h2h : 2 ≤ h)
    (hcx : x = 0 ∨ x = w - 1) (hcy : y = 0 ∨ y = h - 1) :
    (nbrs w h x y).length = 3 := by
  rw [nbrs_length]
  rcases hcx with rfl | rfl <;> rcases hcy with rfl | rfl <;> split_ifs <;> omega

set_option maxHeartbeats 1000000 in
theorem nbrs_length_edge (w h x y : Nat) (hx : x < w) (hy : y < h)
    (h2w : 2 ≤ w) (h2h : 2 ≤ h)
    (he : x = 0 ∨ x = w - 1 ∨ y = 0 ∨ y = h - 1)
    (hnc : ¬((x = 0 ∨ x = w - 1) ∧ (y = 0 ∨ y = h - 1))) :
    (nbrs w h x y).length = 5 := by
  rw [nbrs_length]
  split_ifs <;> omega

set_option maxHeartbeats 1000000 in
theorem nbrs_length_interior (w h x y : Nat) (hx : x < w) (hy : y < h)
    (he : ¬(x = 0 ∨ x = w - 1 ∨ y = 0 ∨ y = h - 1)) :
    (nbrs w h x y).length = 8 := by
  rw [nbrs_length]
  split_ifs <;> omega

theorem nbrs_length_one_by_one (x y : Nat) (hx : x < 1) (hy : y < 1) :
    (nbrs 1 1 x y).length = 0 := by
  rw [nbrs_length]
  split_ifs <;> omega

/-! ## Claim C4: neighbor sets -/

/-- C4 counterexample: in the 1×2 grid (width 1, height 2, both ≥ 1) the
tile `(0, 0)` is a corner tile, yet it has 1 neighbor, not 3: the
corner-gets-3 consequence fails on degenerate one-wide grids. -/
theorem neighbors_corner_counterexample :
    (0 : Nat) < 1 ∧ (0 : Nat) < 2 ∧ isCornerTile 1 2 0 0 ∧
      ((⟨0, 0, TileType.Safe, TileVisibility.Hidden, 0⟩ : Tile).neighbors 1 2).length = 1 ∧
      ((⟨0, 0, TileType.Safe, TileVisibility.Hidden, 0⟩ : Tile).neighbors 1 2).length ≠ 3 := by
  refine ⟨by decide, by decide, ⟨Or.inl rfl, Or.inl rfl⟩, by decide, by decide⟩

/-- C4 amended: for every grid with `W, H ≥ 1` and in-bounds tile,
`Tile::neighbors` returns exactly the in-bounds subset of the eight compass
cells; the 3/5/8 classification (corner / non-corner edge / interior) holds
whenever `W, H ≥ 2`, and the single tile of a 1×1 grid has 0 neighbors. -/
theorem neighbors_exact_in_bounds_compass (t : Tile) (width height : Nat)
    (hw : 0 < width) (hh : 0 < height) (hx : t.x < width) (hy : t.y < height) :
    (∀ a b, ((a, b) ∈ t.neighbors width height) ↔
        (a < width ∧ b < height ∧ adjacentB t.x t.y a b = true)) ∧
    (2 ≤ width → 2 ≤ height → isCornerTile width height t.x t.y →
        (t.neighbors width height).length = 3) ∧
    (2 ≤ width → 2 ≤ height → isEdgeTile width height t.x t.y →
        ¬ isCornerTile width height t.x t.y → (t.neighbors width height).length = 5) ∧
    (¬ isEdgeTile width height t.x t.y → (t.neighbors width height).length = 8) ∧
    (width = 1 → height = 1 → (t.neighbors width height).length = 0) := by
  refine ⟨fun a b => mem_nbrs width height t.x t.y a b hx hy, ?_, ?_, ?_, ?_⟩
  · intro h2w h2h hc
    obtain ⟨hcx, hcy⟩ := hc
    exact nbrs_length_corner width height t.x t.y hx hy h2w h2h hcx hcy
  · intro h2w h2h he hnc
    unfold isCornerTile at hnc
    unfold isEdgeTile at he
    exact nbrs_length_edge width height t.x t.y hx hy h2w h2h he hnc
  · intro he
    unfold isEdgeTile at he
    exact nbrs_length_interior width height t.x t.y hx hy he
  · intro hW hH
    subst hW; subst hH
    exact nbrs_length_one_by_one t.x t.y hx hy

/-- Witness for the amended C4: the center tile of a 3×3 grid. -/
theorem neighbors_exact_in_bounds_compass_witness :
    ((0 : Nat) < 3 ∧ (0 : Nat) < 3 ∧
      (⟨1, 1, TileType.Safe, TileVisibility.Hidden, 0⟩ : Tile).x < 3 ∧
      (⟨1, 1, TileType.Safe, TileVisibility.Hidden, 0⟩ : Tile).y < 3) ∧
    ((∀ a b, ((a, b) ∈ (⟨1, 1, TileType.Safe, TileVisibility.Hidden, 0⟩ : Tile).neighbors 3 3) ↔
        (a < 3 ∧ b < 3 ∧ adjacentB 1 1 a b = true)) ∧
    (2 ≤ 3 → 2 ≤ 3 → isCornerTile 3 3 1 1 →
        ((⟨1, 1, TileType.Safe, TileVisibility.Hidden, 0⟩ : Tile).neighbors 3 3).length = 3) ∧
    (2 ≤ 3 → 2 ≤ 3 → isEdgeTile 3 3 1 1 → ¬ isCornerTile 3 3 1 1 →
        ((⟨1, 1, TileType.Safe, TileVisibility.Hidden, 0⟩ : Tile).neighbors 3 3).length = 5) ∧
    (¬ isEdgeTile 3 3 1 1 →
        ((⟨1, 1, TileType.Safe, TileVisibility.Hidden, 0⟩ : Tile).neighbors 3 3).length = 8) ∧
    ((3 : Nat) = 1 → (3 : Nat) = 1 →
        ((⟨1, 1, TileType.Safe, TileVisibility.Hidden, 0⟩ : Tile).neighbors 3 3).length = 0)) :=
  ⟨⟨by decide, by decide, by decide, by decide⟩,
    neighbors_exact_in_bounds_compass _ 3 3 (by decide) (by decide) (by decide) (by decide)⟩

/-! ## Linear indexing arithmetic -/

theorem toIdx_lt_of_bounds (w h x y : Nat) (hx : x < w) (hy : y < h) :
    x + y * w < h * w := by
  have h1 : x + y * w < (y + 1) * w := by
    rw [Nat.succ_mul]; omega
  have h2 : (y + 1) * w ≤ h * w :=
    Nat.mul_le_mul (Nat.succ_le_of_lt hy) (Nat.le_refl w)
  omega

theorem toIdx_mod (w x y : Nat) (hx : x < w) : (x + y * w) % w = x := by
  rw [Nat.add_mul_mod_self_right]
  exact Nat.mod_eq_of_lt hx

theorem toIdx_div (w x y : Nat) (hx : x < w) : (x + y * w) / w = y := by
  have hw : 0 < w := Nat.lt_of_le_of_lt (Nat.zero_le x) hx
  rw [Nat.add_mul_div_right _ _ hw, Nat.div_eq_of_lt hx]
  exact Nat.zero_add y

theorem toIdx_inj (w x y a b : Nat) (hx : x < w) (ha : a < w)
    (h : x + y * w = a + b * w) : x = a ∧ y = b := by
  have e1 := toIdx_mod w x y hx
  have e2 := toIdx_mod w a b ha
  have e3 := toIdx_div w x y hx
  have e4 := toIdx_div w a b ha
  rw [h] at e1 e3
  omega

theorem idx_mod_lt (w h i : Nat) (hw : 0 < w) : i % w < w :=
  Nat.mod_lt i hw

theorem idx_div_lt (w h i : Nat) (hw : 0 < w) (hi : i < h * w) : i / w < h := by
  rw [Nat.div_lt_iff_lt_mul hw]
  exact hi

theorem idx_recombine (w i : Nat) : i % w + i / w * w = i := by
  rw [Nat.mul_comm]
  exact Nat.mod_add_div i w

/-! ## The generation pass computes accurate counts -/

theorem foldl_count_congr {α : Type} : ∀ (l : List α) (f g : α → Bool),
    (∀ a ∈ l, f a = g a) → ∀ n : Nat,
    l.foldl (fun c p => if f p then c + 1 else c) n =
      l.foldl (fun c p => if g p then c + 1 else c) n := by
  intro l f g
  induction l with
  | nil => intro _ n; rfl
  | cons a tail ih =>
    intro hfg n
    simp only [List.foldl_cons]
    rw [hfg a (List.mem_cons_self a tail)]
    exact ih (fun b hb => hfg b (List.mem_cons_of_mem a hb)) _

theorem foldl_count_eq_countP {α : Type} : ∀ (l : List α) (f : α → Bool) (n : Nat),
    l.foldl (fun c p => if f p then c + 1 else c) n = n + l.countP f := by
  intro l f
  induction l with
  | nil => intro n; simp
  | cons a tail ih =>
    intro n
    simp only [List.foldl_cons, List.countP_cons]
    by_cases h : f a <;> simp [h, ih] <;> omega

theorem neighborMineCount_congr (ts ts' : List Tile) (width height : Nat)
    (t t' : Tile) (hx : t.x = t'.x) (hy : t.y = t'.y)
    (htypes : ∀ j, (tileAt ts j).tile_type = (tileAt ts' j).tile_type) :
    neighborMineCount ts width height t = neighborMineCount ts' width height t' := by
  unfold neighborMineCount Tile.neighbors
  rw [hx, hy]
  exact @foldl_count_congr (Nat × Nat) _
    (fun p => (tileAt ts (p.1 + p.2 * width)).tile_type.isMine)
    (fun p => (tileAt ts' (p.1 + p.2 * width)).tile_type.isMine)
    (fun p _ => by simp only [htypes (p.1 + p.2 * width)]) 0

theorem length_countStep (w h : Nat) (ts : List Tile) (i : Nat) :
    (countStep w h ts i).length = ts.length := by
  unfold countStep
  simp

theorem tileAt_countStep_self (w h : Nat) (ts : List Tile) (j : Nat)
    (hj : j < ts.length) :
    tileAt (countStep w h ts j) j =
      { tileAt ts j with mine_count := neighborMineCount ts w h (tileAt ts j) } := by
  unfold countStep
  exact tileAt_set_self _ _ _ hj

theorem tileAt_countStep_ne (w h : Nat) (ts : List Tile) (i j : Nat) (hij : i ≠ j) :
    tileAt (countStep w h ts i) j = tileAt ts j := by
  unfold countStep
  exact tileAt_set_ne _ _ _ _ hij

theorem countPass_go_spec (width height : Nat) : ∀ (l : List Nat) (ts : List Tile),
    (∀ j ∈ l, j < ts.length) →
    ((l.foldl (countStep width height) ts).length = ts.length ∧
     (∀ i, ((tileAt (l.foldl (countStep width height) ts) i).x = (tileAt ts i).x) ∧
           ((tileAt (l.foldl (countStep width height) ts) i).y = (tileAt ts i).y) ∧
           ((tileAt (l.foldl (countStep width height) ts) i).tile_type =
              (tileAt ts i).tile_type) ∧
           ((tileAt (l.foldl (countStep width height) ts) i).tile_visibility =
              (tileAt ts i).tile_visibility)) ∧
     (∀ i, i ∉ l →
        (tileAt (l.foldl (countStep width height) ts) i).mine_count =
          (tileAt ts i).mine_count) ∧
     (∀ i ∈ l, (tileAt (l.foldl (countStep width height) ts) i).mine_count =
        neighborMineCount ts width height (tileAt ts i))) := by
  intro l
  induction l with
  | nil =>
    intro ts _
    exact ⟨rfl, fun i => ⟨rfl, rfl, rfl, rfl⟩, fun i _ => rfl,
      fun i hi => absurd hi (List.not_mem_nil i)⟩
  | cons j rest ih =>
    intro ts hl
    simp only [List.foldl_cons]
    have hjlen : j < ts.length := hl j (List.mem_cons_self j rest)
    have hlen1 : (countStep width height ts j).length = ts.length :=
      length_countStep width height ts j
    have fields1 : ∀ i,
        (tileAt (countStep width height ts j) i).x = (tileAt ts i).x ∧
        (tileAt (countStep width height ts j) i).y = (tileAt ts i).y ∧
        (tileAt (countStep width height ts j) i).tile_type = (tileAt ts i).tile_type ∧
        (tileAt (countStep width height ts j) i).tile_visibility =
          (tileAt ts i).tile_visibility := by
      intro i
      by_cases hij : j = i
      · subst hij
        rw [tileAt_countStep_self width height ts j hjlen]
        exact ⟨rfl, rfl, rfl, rfl⟩
      · rw [tileAt_countStep_ne width height ts j i hij]
        exact ⟨rfl, rfl, rfl, rfl⟩
    have htypes1 : ∀ i, (tileAt (countStep width height ts j) i).tile_type =
        (tileAt ts i).tile_type := fun i => (fields1 i).2.2.1
    obtain ⟨ihlen, ihfields, ihout, ihin⟩ :=
      ih (countStep width height ts j) (fun i hi => by
        rw [hlen1]; exact hl i (List.mem_cons_of_mem j hi))
    refine ⟨by rw [ihlen, hlen1], ?_, ?_, ?_⟩
    · intro i
      obtain ⟨f1, f2, f3, f4⟩ := ihfields i
      obtain ⟨g1, g2, g3, g4⟩ := fields1 i
      exact ⟨f1.trans g1, f2.trans g2, f3.trans g3, f4.trans g4⟩
    · intro i hi
      have hij : j ≠ i := fun hji => hi (hji ▸ List.mem_cons_self j rest)
      have hirest : i ∉ rest := fun hr => hi (List.mem_cons_of_mem j hr)
      rw [ihout i hirest, tileAt_countStep_ne width height ts j i hij]
    · intro i hi
      by_cases hirest : i ∈ rest
      · rw [ihin i hirest]
        obtain ⟨g1, g2, g3, g4⟩ := fields1 i
        exact neighborMineCount_congr _ _ _ _ _ _ g1 g2 htypes1
      · have hij : i = j := by
          rcases List.mem_cons.mp hi with h' | h'
          · exact h'
          · exact absurd h' hirest
        subst hij
        rw [ihout i hirest, tileAt_countStep_self width height ts i hjlen]

theorem specMineCount_eq_nbr_filter (g : Game) (hw : 0 < g.width)
    (hlen : g.tiles.length = g.height * g.width)
    (hco : ∀ i, i < g.tiles.length →
      (tileAt g.tiles i).x = i % g.width ∧ (tileAt g.tiles i).y = i / g.width)
    (x y : Nat) (hx : x < g.width) (hy : y < g.height) :
    specMineCount g x y =
      ((nbrs g.width g.height x y).filter
        (fun p => (tileAt g.tiles (p.1 + p.2 * g.width)).tile_type.isMine)).length := by
  unfold specMineCount
  have hperm : ((List.range g.tiles.length).filter (fun j =>
      adjacentB x y (tileAt g.tiles j).x (tileAt g.tiles j).y &&
      (tileAt g.tiles j).tile_type.isMine)).Perm
      (((nbrs g.width g.height x y).filter
        (fun p => (tileAt g.tiles (p.1 + p.2 * g.width)).tile_type.isMine)).map
        (fun p => p.1 + p.2 * g.width)) := by
    refine (List.perm_ext_iff_of_nodup ?_ ?_).mpr ?_
    · exact List.Nodup.filter _ (List.nodup_range _)
    · refine List.Nodup.map_on ?_ (List.Nodup.filter _ (nbrs_nodup _ _ x y))
      rintro ⟨a, b⟩ hab ⟨c, d⟩ hcd h
      have h' : a + b * g.width = c + d * g.width := h
      have hab' := (List.mem_filter.mp hab).1
      have hcd' := (List.mem_filter.mp hcd).1
      obtain ⟨haw, hbh, -⟩ := (mem_nbrs _ _ x y a b hx hy).mp hab'
      obtain ⟨hcw, hdh, -⟩ := (mem_nbrs _ _ x y c d hx hy).mp hcd'
      obtain ⟨h1, h2⟩ := toIdx_inj g.width a b c d haw hcw h'
      rw [h1, h2]
    · intro j
      simp only [List.mem_filter, List.mem_range, List.mem_map, Bool.and_eq_true]
      constructor
      · rintro ⟨hjlen, hadj, hmine⟩
        refine ⟨(j % g.width, j / g.width), ⟨?_, ?_⟩, ?_⟩
        · refine (mem_nbrs _ _ x y _ _ hx hy).mpr
            ⟨Nat.mod_lt j hw, idx_div_lt g.width g.height j hw (hlen ▸ hjlen), ?_⟩
          obtain ⟨hcx, hcy⟩ := hco j hjlen
          rw [hcx, hcy] at hadj
          exact hadj
        · show (tileAt g.tiles (j % g.width + j / g.width * g.width)).tile_type.isMine = true
          rw [idx_recombine g.width j]
          exact hmine
        · exact idx_recombine g.width j
      · rintro ⟨⟨a, b⟩, hpfil, hmap⟩
        have hmap' : a + b * g.width = j := hmap
        have hpn := hpfil.1
        have hpm' : (tileAt g.tiles (a + b * g.width)).tile_type.isMine = true := hpfil.2
        obtain ⟨haw, hbh, hadj⟩ := (mem_nbrs _ _ x y a b hx hy).mp hpn
        have hjl : a + b * g.width < g.tiles.length := by
          rw [hlen]; exact toIdx_lt_of_bounds _ _ a b haw hbh
        subst hmap'
        refine ⟨hjl, ?_, hpm'⟩
        obtain ⟨hcx, hcy⟩ := hco (a + b * g.width) hjl
        rw [hcx, hcy, toIdx_mod _ _ _ haw, toIdx_div _ _ _ haw]
        exact hadj
  rw [hperm.length_eq, List.length_map]

theorem initialTiles_length (w h : Nat) (kinds : Nat → TileType) :
    (initialTiles w h kinds).length = h * w := by
  simp [initialTiles]

theorem tileAt_initialTiles (w h : Nat) (kinds : Nat → TileType) (i : Nat)
    (hi : i < h * w) :
    tileAt (initialTiles w h kinds) i =
      ⟨i % w, i / w, kinds i, TileVisibility.Hidden, 0⟩ := by
  rw [tileAt, List.getD_eq_getElem _ _ (by simpa [initialTiles_length] using hi)]
  simp [initialTiles]

theorem countPass_spec (w h : Nat) (ts0 : List Tile) :
    (countPass w h ts0).length = ts0.length ∧
    (∀ i, ((tileAt (countPass w h ts0) i).x = (tileAt ts0 i).x) ∧
          ((tileAt (countPass w h ts0) i).y = (tileAt ts0 i).y) ∧
          ((tileAt (countPass w h ts0) i).tile_type = (tileAt ts0 i).tile_type) ∧
          ((tileAt (countPass w h ts0) i).tile_visibility =
            (tileAt ts0 i).tile_visibility)) ∧
    (∀ i, i < ts0.length → (tileAt (countPass w h ts0) i).mine_count =
        neighborMineCount ts0 w h (tileAt ts0 i)) := by
  obtain ⟨h1, h2, h3, h4⟩ :=
    countPass_go_spec w h (List.range ts0.length) ts0 (fun j hj => List.mem_range.mp hj)
  exact ⟨h1, h2, fun i hi => h4 i (List.mem_range.mpr hi)⟩

theorem new_tiles_length (w h : Nat) (kinds : Nat → TileType) :
    (Game.new w h kinds).tiles.length = h * w := by
  show (countPass w h (initialTiles w h kinds)).length = h * w
  rw [(countPass_spec w h (initialTiles w h kinds)).1, initialTiles_length]

theorem new_coherent (w h : Nat) (kinds : Nat → TileType) (hw : 0 < w) :
    Coherent (Game.new w h kinds) := by
  obtain ⟨hL, hF, hM⟩ := countPass_spec w h (initialTiles w h kinds)
  refine ⟨hw, new_tiles_length w h kinds, ?_⟩
  intro i hi
  have hi' : i < h * w := by rw [← new_tiles_length w h kinds]; exact hi
  have hf := hF i
  have hinit := tileAt_initialTiles w h kinds i hi'
  constructor
  · show (tileAt (countPass w h (initialTiles w h kinds)) i).x = i % w
    rw [hf.1, hinit]
  · show (tileAt (countPass w h (initialTiles w h kinds)) i).y = i / w
    rw [hf.2.1, hinit]

theorem neighborMineCount_eq_filter (ts : List Tile) (w h : Nat) (t : Tile) :
    neighborMineCount ts w h t = ((t.neighbors w h).filter
      (fun p => (tileAt ts (p.1 + p.2 * w)).tile_type.isMine)).length := by
  unfold neighborMineCount
  rw [@foldl_count_eq_countP (Nat × Nat) (t.neighbors w h)
    (fun p => (tileAt ts (p.1 + p.2 * w)).tile_type.isMine) 0]
  rw [Nat.zero_add, List.countP_eq_length_filter]

theorem new_mine_counts (w h : Nat) (kinds : Nat → TileType) (hw : 0 < w) :
    mineCountsAccurate (Game.new w h kinds) := by
  obtain ⟨hL, hF, hM⟩ := countPass_spec w h (initialTiles w h kinds)
  intro i hi
  have hco := new_coherent w h kinds hw
  obtain ⟨-, hlen, hcoords⟩ := hco
  have hi' : i < h * w := by rw [← new_tiles_length w h kinds]; exact hi
  have hxv : (tileAt (Game.new w h kinds).tiles i).x = i % w := (hcoords i hi).1
  have hyv : (tileAt (Game.new w h kinds).tiles i).y = i / w := (hcoords i hi).2
  have hxlt : (tileAt (Game.new w h kinds).tiles i).x < w := by
    rw [hxv]; exact Nat.mod_lt i hw
  have hylt : (tileAt (Game.new w h kinds).tiles i).y < h := by
    rw [hyv]; exact idx_div_lt w h i hw hi'
  -- the stored count is the second-pass count over the initial tiles
  have hstored : (tileAt (Game.new w h kinds).tiles i).mine_count =
      neighborMineCount (initialTiles w h kinds) w h
        (tileAt (initialTiles w h kinds) i) := by
    show (tileAt (countPass w h (initialTiles w h kinds)) i).mine_count = _
    exact hM i (by rw [initialTiles_length]; exact hi')
  -- move the count from the initial tiles to the final tiles
  have hcongr : neighborMineCount (initialTiles w h kinds) w h
      (tileAt (initialTiles w h kinds) i) =
      neighborMineCount (Game.new w h kinds).tiles w h
        (tileAt (Game.new w h kinds).tiles i) := by
    refine neighborMineCount_congr _ _ _ _ _ _ ?_ ?_ ?_
    · exact ((hF i).1).symm
    · exact ((hF i).2.1).symm
    · intro j
      exact ((hF j).2.2.1).symm
  rw [hstored, hcongr, neighborMineCount_eq_filter]
  rw [specMineCount_eq_nbr_filter (Game.new w h kinds) hw hlen hcoords _ _ hxlt hylt]
  rfl

/-! ## Commands never touch kind, coordinates or mine counts -/

theorem sameSkeleton_refl (g : Game) : SameSkeleton g g :=
  ⟨rfl, rfl, rfl, fun _ => ⟨rfl, rfl, rfl, rfl⟩⟩

theorem sameSkeleton_trans {g1 g2 g3 : Game} (h12 : SameSkeleton g1 g2)
    (h23 : SameSkeleton g2 g3) : SameSkeleton g1 g3 := by
  obtain ⟨a1, a2, a3, a4⟩ := h12
  obtain ⟨b1, b2, b3, b4⟩ := h23
  refine ⟨a1.trans b1, a2.trans b2, a3.trans b3, fun j => ?_⟩
  obtain ⟨c1, c2, c3, c4⟩ := a4 j
  obtain ⟨d1, d2, d3, d4⟩ := b4 j
  exact ⟨c1.trans d1, c2.trans d2, c3.trans d3, c4.trans d4⟩

theorem tileAt_set_vis_fields (ts : List Tile) (idx : Nat) (v : TileVisibility) (j : Nat) :
    (tileAt ts j).x =
      (tileAt (ts.set idx ({ tileAt ts idx with tile_visibility := v })) j).x ∧
    (tileAt ts j).y =
      (tileAt (ts.set idx ({ tileAt ts idx with tile_visibility := v })) j).y ∧
    (tileAt ts j).tile_type =
      (tileAt (ts.set idx ({ tileAt ts idx with tile_visibility := v })) j).tile_type ∧
    (tileAt ts j).mine_count =
      (tileAt (ts.set idx ({ tileAt ts idx with tile_visibility := v })) j).mine_count := by
  by_cases hij : idx = j
  · subst hij
    by_cases hlt : idx < ts.length
    · rw [tileAt_set_self _ _ _ hlt]
      exact ⟨rfl, rfl, rfl, rfl⟩
    · rw [List.set_eq_of_length_le (Nat.le_of_not_lt hlt)]
      exact ⟨rfl, rfl, rfl, rfl⟩
  · rw [tileAt_set_ne _ _ _ _ hij]
    exact ⟨rfl, rfl, rfl, rfl⟩

theorem sameSkeleton_set_vis (g : Game) (idx : Nat) (v : TileVisibility) :
    SameSkeleton g
      { g with tiles := g.tiles.set idx ({ tileAt g.tiles idx with tile_visibility := v }) } :=
  ⟨rfl, rfl, by simp, fun j => tileAt_set_vis_fields g.tiles idx v j⟩

theorem floodFold_skeleton (f : Game → Nat → Nat → Game)
    (hf : ∀ g x y, SameSkeleton g (f g x y)) :
    ∀ (ps : List (Nat × Nat)) (g : Game), SameSkeleton g (floodFold f g ps) := by
  intro ps
  induction ps with
  | nil => intro g; exact sameSkeleton_refl g
  | cons p rest ih =>
    intro g
    simp only [floodFold]
    split
    · exact sameSkeleton_trans (hf g p.1 p.2) (ih (f g p.1 p.2))
    · exact ih g

theorem flood_go_skeleton : ∀ (fuel : Nat) (g : Game) (x y : Nat),
    SameSkeleton g (Game.flood_reveal_go fuel g x y) := by
  intro fuel
  induction fuel with
  | zero => intro g x y; exact sameSkeleton_refl g
  | succ fuel ih =>
    intro g x y
    simp only [Game.flood_reveal_go]
    split
    · exact sameSkeleton_set_vis g (x + y * g.width) TileVisibility.Visible
    · exact sameSkeleton_trans
        (sameSkeleton_set_vis g (x + y * g.width) TileVisibility.Visible)
        (floodFold_skeleton _ ih _ _)

theorem flood_reveal_skeleton (g : Game) (x y : Nat) :
    SameSkeleton g (g.flood_reveal x y) :=
  flood_go_skeleton _ g x y

theorem toggle_mark_skeleton (g : Game) : SameSkeleton g (g.toggle_mark).1 := by
  rw [Game.toggle_mark]
  rcases hv : (tileAt g.tiles (g.selected.1 + g.selected.2 * g.width)).tile_visibility
    with _ | _ | _ <;> simp only [hv]
  · exact sameSkeleton_refl g
  · exact sameSkeleton_set_vis g (g.selected.1 + g.selected.2 * g.width)
      TileVisibility.Hidden
  · exact sameSkeleton_set_vis g (g.selected.1 + g.selected.2 * g.width)
      TileVisibility.Marked

theorem click_tile_skeleton (g : Game) : SameSkeleton g (g.click_tile).1 := by
  rw [Game.click_tile]
  split
  · exact sameSkeleton_refl g
  · split
    · exact sameSkeleton_set_vis g (g.selected.1 + g.selected.2 * g.width)
        TileVisibility.Visible
    · exact sameSkeleton_trans
        (sameSkeleton_set_vis g (g.selected.1 + g.selected.2 * g.width)
          TileVisibility.Visible)
        (flood_reveal_skeleton _ _ _)

theorem step_skeleton (g : Game) (c : Cmd) : SameSkeleton g (g.step c) := by
  rcases c with p | _ | _
  · rw [Game.step, Game.set_selected]
    split
    · exact ⟨rfl, rfl, rfl, fun _ => ⟨rfl, rfl, rfl, rfl⟩⟩
    · exact sameSkeleton_refl g
  · exact toggle_mark_skeleton g
  · exact click_tile_skeleton g

theorem run_skeleton (g : Game) (cs : List Cmd) : SameSkeleton g (g.run cs) := by
  induction cs generalizing g with
  | nil => exact sameSkeleton_refl g
  | cons c rest ih =>
    rw [Game.run, List.foldl_cons]
    exact sameSkeleton_trans (step_skeleton g c) (ih (g.step c))

theorem specMineCount_skeleton {g g' : Game} (hs : SameSkeleton g g') (x y : Nat) :
    specMineCount g x y = specMineCount g' x y := by
  obtain ⟨hw, hh, hlen, hfields⟩ := hs
  unfold specMineCount
  rw [← hlen]
  congr 1
  refine List.filter_congr' ?_
  intro j _
  obtain ⟨f1, f2, f3, f4⟩ := hfields j
  simp only [f1, f2, f3]

theorem mineCountsAccurate_skeleton {g g' : Game} (hs : SameSkeleton g g')
    (hacc : mineCountsAccurate g) : mineCountsAccurate g' := by
  intro i hi
  obtain ⟨f1, f2, f3, f4⟩ := hs.2.2.2 i
  have hi' : i < g.tiles.length := by rw [hs.2.2.1]; exact hi
  rw [← f4, ← f1, ← f2, ← specMineCount_skeleton hs]
  exact hacc i hi'

/-! ## Claim C2: mine counts are accurate and stay accurate -/

/-- C2: on every board produced by `Game::new` with positive dimensions and
after any sequence of `set_selected`, `toggle_mark`, `click_tile` commands,
every tile's `mine_count` equals the exact number of Mine-kind tiles among
its in-bounds compass neighbors (no command ever changes a tile's kind,
coordinates, or mine count). -/
theorem mine_counts_invariant (w h : Nat) (kinds : Nat → TileType) (cs : List Cmd)
    (hw : 0 < w) (hh : 0 < h) :
    mineCountsAccurate ((Game.new w h kinds).run cs) :=
  mineCountsAccurate_skeleton (run_skeleton (Game.new w h kinds) cs)
    (new_mine_counts w h kinds hw)

/-- Witness for C2 on a generated 2×2 board with one Mine, after a Reveal
command. -/
theorem mine_counts_invariant_witness :
    ((0 : Nat) < 2 ∧ (0 : Nat) < 2) ∧
      mineCountsAccurate ((Game.new 2 2 kinds22).run [Cmd.reveal]) :=
  ⟨⟨by decide, by decide⟩,
    mine_counts_invariant 2 2 kinds22 [Cmd.reveal] (by decide) (by decide)⟩

/-! ## Claims C5, C7, C10: loss on mines, win checks, marked-tile wins -/

theorem isMarked_eq_false (v : TileVisibility) :
    v.isMarked = false ↔ v ≠ TileVisibility.Marked := by
  cases v <;> simp [TileVisibility.isMarked]

theorem check_game_won_cases (g : Game) :
    g.check_game_won = ["Game won ^-^"] ∨ g.check_game_won = [] := by
  rw [Game.check_game_won, Game.end_game]
  split
  · exact Or.inl rfl
  · exact Or.inr rfl

theorem mem_check_game_won_iff (g : Game) :
    "Game won ^-^" ∈ g.check_game_won ↔ noHiddenSafe g := by
  constructor
  · intro hm
    rcases check_game_won_cases g with he | he
    · exact (check_game_won_spec g).mp he
    · rw [he] at hm
      cases hm
  · intro hn
    rw [(check_game_won_spec g).mpr hn]
    exact List.mem_singleton.mpr rfl

/-- C5: when the selected tile is a non-Marked Mine, `click_tile` makes
exactly that tile Visible, emits the loss signal, and leaves every other
tile's visibility unchanged (no flood expansion happens on a mine). -/
theorem click_tile_mine_loss (g : Game)
    (hlen : g.tiles.length = g.height * g.width)
    (hx : g.selected.1 < g.width) (hy : g.selected.2 < g.height)
    (hmine : (tileAt g.tiles (g.selected.1 + g.selected.2 * g.width)).tile_type =
      TileType.Mine)
    (hnm : (tileAt g.tiles (g.selected.1 + g.selected.2 * g.width)).tile_visibility ≠
      TileVisibility.Marked) :
    "You exploded >_<" ∈ (g.click_tile).2 ∧
    (g.click_tile).1.visAt g.selected.1 g.selected.2 = TileVisibility.Visible ∧
    (∀ a b, a < g.width → b < g.height → ¬(a = g.selected.1 ∧ b = g.selected.2) →
      (g.click_tile).1.visAt a b = g.visAt a b) := by
  have hidx : g.selected.1 + g.selected.2 * g.width < g.tiles.length := by
    rw [hlen]; exact toIdx_lt_of_bounds _ _ _ _ hx hy
  have hb : (tileAt g.tiles
      (g.selected.1 + g.selected.2 * g.width)).tile_visibility.isMarked = false :=
    (isMarked_eq_false _).mpr hnm
  simp only [Game.click_tile, hb, hmine, Bool.false_eq_true, if_false]
  refine ⟨by simp [Game.end_game], ?_, ?_⟩
  · show (tileAt (g.tiles.set (g.selected.1 + g.selected.2 * g.width) _)
      (g.selected.1 + g.selected.2 * g.width)).tile_visibility = TileVisibility.Visible
    rw [tileAt_set_self _ _ _ hidx]
  · intro a b ha hb' hne
    show (tileAt (g.tiles.set (g.selected.1 + g.selected.2 * g.width) _)
      (a + b * g.width)).tile_visibility = g.visAt a b
    have hneidx : g.selected.1 + g.selected.2 * g.width ≠ a + b * g.width := by
      intro he
      obtain ⟨h1, h2⟩ := toIdx_inj g.width g.selected.1 g.selected.2 a b hx ha he
      exact hne ⟨h1.symm, h2.symm⟩
    rw [tileAt_set_ne _ _ _ _ hneidx]
    rfl

/-- Witness for C5: clicking the Hidden Mine of a 2×1 board. -/
theorem click_tile_mine_loss_witness :
    (mineSelBoard.tiles.length = mineSelBoard.height * mineSelBoard.width ∧
      mineSelBoard.selected.1 < mineSelBoard.width ∧
      mineSelBoard.selected.2 < mineSelBoard.height ∧
      (tileAt mineSelBoard.tiles
        (mineSelBoard.selected.1 + mineSelBoard.selected.2 * mineSelBoard.width)).tile_type =
        TileType.Mine ∧
      (tileAt mineSelBoard.tiles
        (mineSelBoard.selected.1 + mineSelBoard.selected.2 * mineSelBoard.width)).tile_visibility ≠
        TileVisibility.Marked) ∧
    ("You exploded >_<" ∈ (mineSelBoard.click_tile).2 ∧
      (mineSelBoard.click_tile).1.visAt mineSelBoard.selected.1 mineSelBoard.selected.2 =
        TileVisibility.Visible ∧
      (∀ a b, a < mineSelBoard.width → b < mineSelBoard.height →
        ¬(a = mineSelBoard.selected.1 ∧ b = mineSelBoard.selected.2) →
        (mineSelBoard.click_tile).1.visAt a b = mineSelBoard.visAt a b)) :=
  ⟨⟨by decide, by decide, by decide, by decide, by decide⟩,
    click_tile_mine_loss mineSelBoard (by decide) (by decide) (by decide)
      (by decide) (by decide)⟩

/-- C7 counterexample: a 1×1 board with a Marked Safe tile.  Its state
satisfies the win condition (no Hidden Safe tile), yet `click_tile` takes
the Marked early return and emits nothing — the win check does not run at
the end of every Reveal command. -/
theorem click_tile_marked_skips_win_check :
    (markedBoard.click_tile).2 = [] ∧ noHiddenSafe (markedBoard.click_tile).1 := by
  constructor
  · rfl
  · rintro ⟨t, ht, h1, h2⟩
    have : t = ⟨0, 0, TileType.Safe, TileVisibility.Marked, 0⟩ := by
      rcases List.mem_singleton.mp ht with rfl
      rfl
    rw [this] at h1
    cases h1

/-- C7 amended: the win check is evaluated at the end of every
`toggle_mark`; `click_tile` evaluates it in all branches except the early
return on a Marked selected tile, where no check (and no signal) happens. -/
theorem win_check_after_commands (g : Game) :
    ((g.toggle_mark).2 = ["Game won ^-^"] ↔ noHiddenSafe (g.toggle_mark).1) ∧
    ((tileAt g.tiles (g.selected.1 + g.selected.2 * g.width)).tile_visibility ≠
        TileVisibility.Marked →
      ("Game won ^-^" ∈ (g.click_tile).2 ↔ noHiddenSafe (g.click_tile).1)) := by
  constructor
  · have he : (g.toggle_mark).2 = ((g.toggle_mark).1).check_game_won := by
      rw [Game.toggle_mark]
    rw [he]
    exact check_game_won_spec _
  · intro hnm
    have hb : (tileAt g.tiles
        (g.selected.1 + g.selected.2 * g.width)).tile_visibility.isMarked = false :=
      (isMarked_eq_false _).mpr hnm
    simp only [Game.click_tile, hb, Bool.false_eq_true, if_false]
    split
    · -- Mine branch: loss message prepended to the win-check output
      rw [Game.end_game]
      constructor
      · intro hm
        rcases List.mem_append.mp hm with hm1 | hm2
        · exact absurd (List.mem_singleton.mp hm1) (by decide)
        · exact (mem_check_game_won_iff _).mp hm2
      · intro hn
        exact List.mem_append.mpr (Or.inr ((mem_check_game_won_iff _).mpr hn))
    · -- Safe branch: the events are exactly the win-check output
      exact mem_check_game_won_iff _

/-- Witness for the amended C7: the Reveal part on a board whose selected
tile is not Marked. -/
theorem win_check_after_commands_witness :
    ((tileAt mineSelBoard.tiles
        (mineSelBoard.selected.1 + mineSelBoard.selected.2 * mineSelBoard.width)).tile_visibility ≠
      TileVisibility.Marked) ∧
    ("Game won ^-^" ∈ (mineSelBoard.click_tile).2 ↔ noHiddenSafe (mineSelBoard.click_tile).1) :=
  ⟨by decide, (win_check_after_commands mineSelBoard).2 (by decide)⟩

/-! ## Claim C10: winning by marking the last Hidden Safe tile -/

/-- C10: if the selected tile is the only remaining Hidden Safe tile, then
`toggle_mark` marks it — never revealing it — and emits the win signal,
because a Marked Safe tile passes the win condition's not-Hidden test. -/
theorem toggle_mark_win_without_reveal (g : Game)
    (hidx : g.selected.1 + g.selected.2 * g.width < g.tiles.length)
    (hhid : (tileAt g.tiles (g.selected.1 + g.selected.2 * g.width)).tile_visibility =
      TileVisibility.Hidden)
    (hothers : ∀ j, j < g.tiles.length → j ≠ g.selected.1 + g.selected.2 * g.width →
      (tileAt g.tiles j).tile_type = TileType.Safe →
      (tileAt g.tiles j).tile_visibility ≠ TileVisibility.Hidden) :
    (g.toggle_mark).2 = ["Game won ^-^"] ∧
      (tileAt (g.toggle_mark).1.tiles
        (g.selected.1 + g.selected.2 * g.width)).tile_visibility =
          TileVisibility.Marked := by
  simp only [Game.toggle_mark, hhid]
  constructor
  · rw [check_game_won_spec]
    rintro ⟨t, ht, h1, h2⟩
    obtain ⟨j, hj, hjt⟩ := List.mem_iff_getElem.mp ht
    have hjlen : j < g.tiles.length := by
      simpa using hj
    have hjat : tileAt (g.tiles.set (g.selected.1 + g.selected.2 * g.width)
        ({ tileAt g.tiles (g.selected.1 + g.selected.2 * g.width) with
          tile_visibility := TileVisibility.Marked })) j = t := by
      rw [tileAt, List.getD_eq_getElem _ _ hj]
      exact hjt
    by_cases hjj : j = g.selected.1 + g.selected.2 * g.width
    · subst hjj
      rw [tileAt_set_self _ _ _ hidx] at hjat
      rw [← hjat] at h1
      cases h1
    · rw [tileAt_set_ne _ _ _ _ (fun he => hjj he.symm)] at hjat
      rw [← hjat] at h1 h2
      exact hothers j hjlen hjj h2 h1
  · rw [tileAt_set_self _ _ _ hidx]

/-- Witness for C10: marking the single Hidden Safe tile of a 1×1 board. -/
theorem toggle_mark_win_without_reveal_witness :
    (oneSafeBoard.selected.1 + oneSafeBoard.selected.2 * oneSafeBoard.width <
        oneSafeBoard.tiles.length ∧
      (tileAt oneSafeBoard.tiles
        (oneSafeBoard.selected.1 + oneSafeBoard.selected.2 * oneSafeBoard.width)).tile_visibility =
        TileVisibility.Hidden ∧
      (∀ j, j < oneSafeBoard.tiles.length →
        j ≠ oneSafeBoard.selected.1 + oneSafeBoard.selected.2 * oneSafeBoard.width →
        (tileAt oneSafeBoard.tiles j).tile_type = TileType.Safe →
        (tileAt oneSafeBoard.tiles j).tile_visibility ≠ TileVisibility.Hidden)) ∧
    ((oneSafeBoard.toggle_mark).2 = ["Game won ^-^"] ∧
      (tileAt (oneSafeBoard.toggle_mark).1.tiles
        (oneSafeBoard.selected.1 + oneSafeBoard.selected.2 * oneSafeBoard.width)).tile_visibility =
          TileVisibility.Marked) :=
  ⟨⟨by decide, by decide, by decide⟩,
    toggle_mark_win_without_reveal oneSafeBoard (by decide) (by decide) (by decide)⟩

/-! ## Hidden-tile counting under reveals -/

theorem countP_set_tile (p : Tile → Bool) : ∀ (l : List Tile) (i : Nat) (t : Tile),
    i < l.length →
    (l.set i t).countP p + (if p (tileAt l i) then 1 else 0) =
      l.countP p + (if p t then 1 else 0) := by
  intro l
  induction l with
  | nil => intro i t hi; exact absurd hi (Nat.not_lt_zero i)
  | cons a tl ih =>
    intro i t hi
    cases i with
    | zero =>
      simp only [List.set_cons_zero, List.countP_cons, tileAt, List.getD_cons_zero]
      by_cases hpt : p t <;> by_cases hpa : p a <;> simp [hpt, hpa] <;> omega
    | succ i' =>
      simp only [List.set_cons_succ, List.countP_cons, tileAt, List.getD_cons_succ]
      have := ih i' t (Nat.lt_of_succ_lt_succ hi)
      unfold tileAt at this
      omega

theorem countP_hidden_set_le (l : List Tile) (idx : Nat) :
    (l.set idx ({ tileAt l idx with tile_visibility := TileVisibility.Visible })).countP
      (fun t => t.tile_visibility.isHidden) ≤
      l.countP (fun t => t.tile_visibility.isHidden) := by
  by_cases hlt : idx < l.length
  · have hthis := countP_set_tile (fun t => t.tile_visibility.isHidden) l idx
      ({ tileAt l idx with tile_visibility := TileVisibility.Visible }) hlt
    have hf : (({ tileAt l idx with tile_visibility := TileVisibility.Visible } :
        Tile).tile_visibility.isHidden) = false := rfl
    simp only [hf, Bool.false_eq_true, if_false, Nat.add_zero] at hthis
    calc (l.set idx ({ tileAt l idx with tile_visibility := TileVisibility.Visible })).countP
          (fun t => t.tile_visibility.isHidden)
        ≤ (l.set idx ({ tileAt l idx with tile_visibility := TileVisibility.Visible })).countP
            (fun t => t.tile_visibility.isHidden) +
          (if (tileAt l idx).tile_visibility.isHidden = true then 1 else 0) :=
        Nat.le_add_right _ _
      _ = l.countP (fun t => t.tile_visibility.isHidden) := hthis
  · rw [List.set_eq_of_length_le (Nat.le_of_not_lt hlt)]

theorem countP_hidden_set_lt (l : List Tile) (idx : Nat) (hlt : idx < l.length)
    (hhid : (tileAt l idx).tile_visibility = TileVisibility.Hidden) :
    (l.set idx ({ tileAt l idx with tile_visibility := TileVisibility.Visible })).countP
      (fun t => t.tile_visibility.isHidden) + 1 =
      l.countP (fun t => t.tile_visibility.isHidden) := by
  have := countP_set_tile (fun t => t.tile_visibility.isHidden) l idx
    ({ tileAt l idx with tile_visibility := TileVisibility.Visible }) hlt
  have hf : (({ tileAt l idx with tile_visibility := TileVisibility.Visible } :
      Tile).tile_visibility.isHidden) = false := rfl
  have ht : ((tileAt l idx).tile_visibility.isHidden) = true := by
    rw [hhid]; rfl
  simp only [hf, ht, if_true, Bool.false_eq_true, if_false, Nat.add_zero] at this
  exact this

theorem hiddenCount_pos_of_hidden (g : Game) (idx : Nat) (hlt : idx < g.tiles.length)
    (hhid : (tileAt g.tiles idx).tile_visibility = TileVisibility.Hidden) :
    1 ≤ hiddenCount g := by
  have hmem : tileAt g.tiles idx ∈ g.tiles := tileAt_mem _ _ hlt
  have hp : ((tileAt g.tiles idx).tile_visibility.isHidden) = true := by
    rw [hhid]; rfl
  exact Nat.succ_le_of_lt (List.countP_pos.mpr ⟨_, hmem, hp⟩)

/-! ## Transfer lemmas along the flood evolution invariant -/

theorem evolves_width {g0 : Game} {x0 y0 : Nat} {g : Game}
    (hE : Evolves g0 x0 y0 g) : g.width = g0.width :=
  (hE.1.1).symm

theorem evolves_height {g0 : Game} {x0 y0 : Nat} {g : Game}
    (hE : Evolves g0 x0 y0 g) : g.height = g0.height :=
  (hE.1.2.1).symm

theorem evolves_length {g0 : Game} {x0 y0 : Nat} {g : Game}
    (hE : Evolves g0 x0 y0 g) : g.tiles.length = g0.tiles.length :=
  (hE.1.2.2.1).symm

theorem evolves_mcAt {g0 : Game} {x0 y0 : Nat} {g : Game}
    (hE : Evolves g0 x0 y0 g) (a b : Nat) : g.mcAt a b = g0.mcAt a b := by
  unfold Game.mcAt Game.toIdx
  rw [evolves_width hE]
  exact ((hE.1.2.2.2 (a + b * g0.width)).2.2.2).symm

theorem evolves_typeAt {g0 : Game} {x0 y0 : Nat} {g : Game}
    (hE : Evolves g0 x0 y0 g) (a b : Nat) : g.typeAt a b = g0.typeAt a b := by
  unfold Game.typeAt Game.toIdx
  rw [evolves_width hE]
  exact ((hE.1.2.2.2 (a + b * g0.width)).2.2.1).symm

theorem evolves_hidden {g0 : Game} {x0 y0 : Nat} {g : Game}
    (hE : Evolves g0 x0 y0 g) (a b : Nat) (ha : a < g0.width) (hb : b < g0.height)
    (h : g.visAt a b = TileVisibility.Hidden) : g0.visAt a b = TileVisibility.Hidden := by
  rcases hE.2 a b ha hb with he | ⟨hv, _⟩
  · rw [← he]; exact h
  · rw [h] at hv; cases hv

theorem floodReach_bounds {g : Game} {x0 y0 : Nat} (hx : x0 < g.width)
    (hy : y0 < g.height) :
    ∀ {a b : Nat}, FloodReach g x0 y0 a b → a < g.width ∧ b < g.height := by
  intro a b h
  induction h with
  | start => exact ⟨hx, hy⟩
  | step hr hmc hnb hph hps ihr =>
    obtain ⟨hu, hv⟩ := ihr
    obtain ⟨h1, h2, -⟩ := (mem_nbrs _ _ _ _ _ _ hu hv).mp hnb
    exact ⟨h1, h2⟩

theorem newClosed_trans {g0 gA gB gC : Game}
    (hAB : NewClosed g0 gA gB) (hBC : NewClosed g0 gB gC)
    (hmono : ∀ a b, a < g0.width → b < g0.height →
      gB.visAt a b = TileVisibility.Visible → gC.visAt a b = TileVisibility.Visible) :
    NewClosed g0 gA gC := by
  intro u v hu hv hCvis hAnot hmc p hp hph hps
  obtain ⟨pa, pb⟩ := p
  obtain ⟨hpw, hph', -⟩ := (mem_nbrs _ _ u v pa pb hu hv).mp hp
  by_cases hB : gB.visAt u v = TileVisibility.Visible
  · exact hmono pa pb hpw hph' (hAB u v hu hv hB hAnot hmc (pa, pb) hp hph hps)
  · exact hBC u v hu hv hCvis hB hmc (pa, pb) hp hph hps

theorem visAt_update (g : Game) (ts : List Tile) (a b : Nat) :
    Game.visAt { g with tiles := ts } a b = (tileAt ts (a + b * g.width)).tile_visibility :=
  rfl

/-- Revealing a cell of the flood closure keeps the evolution invariant. -/
theorem evolves_set_visible {g0 : Game} {x0 y0 : Nat} (hco : Coherent g0)
    {g : Game} (hE : Evolves g0 x0 y0 g) (x y : Nat)
    (hx : x < g0.width) (hy : y < g0.height) (hr : FloodReach g0 x0 y0 x y) :
    Evolves g0 x0 y0
      { g with tiles := g.tiles.set (x + y * g.width) ({ tileAt g.tiles (x + y * g.width) with tile_visibility := TileVisibility.Visible }) } := by
  have hidx : x + y * g.width < g.tiles.length := by
    rw [evolves_width hE, evolves_length hE, hco.2.1]
    exact toIdx_lt_of_bounds _ _ _ _ hx hy
  refine ⟨sameSkeleton_trans hE.1 (sameSkeleton_set_vis g (x + y * g.width)
    TileVisibility.Visible), ?_⟩
  intro a b ha hb
  rw [visAt_update, visAt_update]
  by_cases hab : a + b * g.width = x + y * g.width
  · have hw : g.width = g0.width := evolves_width hE
    obtain ⟨h1, h2⟩ := toIdx_inj g.width a b x y (hw ▸ ha) (hw ▸ hx) hab
    subst h1; subst h2
    rw [tileAt_set_self _ _ _ hidx]
    exact Or.inr ⟨rfl, hr⟩
  · rw [tileAt_set_ne _ _ _ _ (fun he => hab he.symm)]
    exact hE.2 a b ha hb

/-! ## Unfolding and access lemmas for the flood recursion -/

theorem flood_go_succ_pos (fuel : Nat) (g : Game) (x y : Nat)
    (hmc : (tileAt g.tiles (x + y * g.width)).mine_count ≠ 0) :
    Game.flood_reveal_go (fuel + 1) g x y =
      { g with tiles := g.tiles.set (x + y * g.width) ({ tileAt g.tiles (x + y * g.width) with tile_visibility := TileVisibility.Visible }) } := by
  simp only [Game.flood_reveal_go]
  rw [if_pos hmc]

theorem flood_go_succ_zero (fuel : Nat) (g : Game) (x y : Nat)
    (hmc : ¬ (tileAt g.tiles (x + y * g.width)).mine_count ≠ 0) :
    Game.flood_reveal_go (fuel + 1) g x y =
      floodFold (Game.flood_reveal_go fuel)
        { g with tiles := g.tiles.set (x + y * g.width) ({ tileAt g.tiles (x + y * g.width) with tile_visibility := TileVisibility.Visible }) }
        (nbrs g.width g.height (tileAt g.tiles (x + y * g.width)).x
          (tileAt g.tiles (x + y * g.width)).y) := by
  simp only [Game.flood_reveal_go]
  rw [if_neg hmc]
  rfl

theorem visAt_g1_self (g : Game) (x y : Nat) (hidx : x + y * g.width < g.tiles.length) :
    Game.visAt { g with tiles := g.tiles.set (x + y * g.width) ({ tileAt g.tiles (x + y * g.width) with tile_visibility := TileVisibility.Visible }) } x y =
      TileVisibility.Visible := by
  rw [visAt_update, tileAt_set_self _ _ _ hidx]

theorem visAt_g1_other (g : Game) (x y a b : Nat)
    (h : x + y * g.width ≠ a + b * g.width) :
    Game.visAt { g with tiles := g.tiles.set (x + y * g.width) ({ tileAt g.tiles (x + y * g.width) with tile_visibility := TileVisibility.Visible }) } a b =
      g.visAt a b := by
  rw [visAt_update, tileAt_set_ne _ _ _ _ h]
  rfl

theorem hiddenCount_g1_le (g : Game) (x y : Nat) :
    hiddenCount { g with tiles := g.tiles.set (x + y * g.width) ({ tileAt g.tiles (x + y * g.width) with tile_visibility := TileVisibility.Visible }) } ≤
      hiddenCount g :=
  countP_hidden_set_le g.tiles (x + y * g.width)

theorem hiddenCount_g1_lt (g : Game) (x y : Nat)
    (hidx : x + y * g.width < g.tiles.length)
    (hhid : g.visAt x y = TileVisibility.Hidden) :
    hiddenCount { g with tiles := g.tiles.set (x + y * g.width) ({ tileAt g.tiles (x + y * g.width) with tile_visibility := TileVisibility.Visible }) } + 1 =
      hiddenCount g :=
  countP_hidden_set_lt g.tiles (x + y * g.width) hidx hhid

/-! ## The neighbor-loop invariant -/

theorem flood_list_spec (g0 : Game) (x0 y0 : Nat) (fuel : Nat)
    (hgo : GoSpec g0 x0 y0 fuel) :
    ∀ ps, ListSpec g0 x0 y0 fuel ps := by
  intro ps
  induction ps with
  | nil =>
    intro g hE hhc hps
    refine ⟨hE, Nat.le_refl _, fun a b _ _ h => h, ?_, ?_, ?_⟩
    · intro a b _ _ hne
      exact absurd rfl hne
    · intro p hp
      exact absurd hp (List.not_mem_nil p)
    · intro u v _ _ h1 h2
      exact absurd h1 h2
  | cons q rest ih =>
    obtain ⟨qa, qb⟩ := q
    intro g hE hhc hps
    by_cases hguard : ((tileAt g.tiles (qa + qb * g.width)).tile_visibility.isHidden &&
        (tileAt g.tiles (qa + qb * g.width)).tile_type.isSafe) = true
    · have hstep : floodFold (Game.flood_reveal_go fuel) g ((qa, qb) :: rest) =
          floodFold (Game.flood_reveal_go fuel) (Game.flood_reveal_go fuel g qa qb) rest := by
        simp only [floodFold]
        rw [if_pos hguard]
      rw [hstep]
      have hguard' := hguard
      rw [Bool.and_eq_true, isHidden_eq_true, isSafe_eq_true] at hguard'
      have hqhid : g.visAt qa qb = TileVisibility.Hidden := hguard'.1
      have hqsafe : g.typeAt qa qb = TileType.Safe := hguard'.2
      obtain ⟨hqw, hqh, hqreach'⟩ := hps (qa, qb) (List.mem_cons_self _ _)
      have hqhid0 : g0.visAt qa qb = TileVisibility.Hidden :=
        evolves_hidden hE qa qb hqw hqh hqhid
      have hqsafe0 : g0.typeAt qa qb = TileType.Safe := by
        rw [← evolves_typeAt hE]; exact hqsafe
      have hqreach : FloodReach g0 x0 y0 qa qb := hqreach' hqhid0 hqsafe0
      obtain ⟨gE1, ghc1, gvis1, gmono1, gframe1, -, gclosed1⟩ :=
        hgo g qa qb hE hqreach hqw hqh (Or.inr ⟨hqhid, hhc⟩)
      obtain ⟨lE, lhc, lmono, lframe, lper, lclosed⟩ :=
        ih (Game.flood_reveal_go fuel g qa qb) gE1 (Nat.le_trans ghc1 hhc)
          (fun p hp => hps p (List.mem_cons_of_mem _ hp))
      refine ⟨lE, Nat.le_trans lhc ghc1, ?_, ?_, ?_, ?_⟩
      · intro a b ha hb hvis
        exact lmono a b ha hb (gmono1 a b ha hb hvis)
      · intro a b ha hb hne
        by_cases hmid : (Game.flood_reveal_go fuel g qa qb).visAt a b = g.visAt a b
        · rw [← hmid] at hne ⊢
          exact lframe a b ha hb hne
        · obtain ⟨hcase, hmidvis⟩ := gframe1 a b ha hb hmid
          have hcase' : g.visAt a b = TileVisibility.Hidden := by
            rcases hcase with h | ⟨rfl, rfl⟩
            · exact h
            · exact hqhid
          exact ⟨hcase', lmono a b ha hb hmidvis⟩
      · intro p hp hph hps'
        obtain ⟨pa, pb⟩ := p
        rcases List.mem_cons.mp hp with heq | hpr
        · cases heq
          exact lmono qa qb hqw hqh gvis1
        · obtain ⟨hpw, hph', -⟩ := hps (pa, pb) (List.mem_cons_of_mem _ hpr)
          by_cases hmid : (Game.flood_reveal_go fuel g qa qb).visAt pa pb =
              TileVisibility.Hidden
          · exact lper (pa, pb) hpr hmid hps'
          · have hchg : (Game.flood_reveal_go fuel g qa qb).visAt pa pb ≠
                g.visAt pa pb := by
              rw [hph]; exact hmid
            obtain ⟨-, hmidvis⟩ := gframe1 pa pb hpw hph' hchg
            exact lmono pa pb hpw hph' hmidvis
      · refine newClosed_trans gclosed1 lclosed ?_
        intro a b ha hb h
        exact lmono a b ha hb h
    · have hstep : floodFold (Game.flood_reveal_go fuel) g ((qa, qb) :: rest) =
          floodFold (Game.flood_reveal_go fuel) g rest := by
        simp only [floodFold]
        rw [if_neg hguard]
      rw [hstep]
      obtain ⟨lE, lhc, lmono, lframe, lper, lclosed⟩ :=
        ih g hE hhc (fun p hp => hps p (List.mem_cons_of_mem _ hp))
      refine ⟨lE, lhc, lmono, lframe, ?_, lclosed⟩
      intro p hp hph hps'
      obtain ⟨pa, pb⟩ := p
      rcases List.mem_cons.mp hp with heq | hpr
      · cases heq
        exfalso
        apply hguard
        rw [Bool.and_eq_true, isHidden_eq_true, isSafe_eq_true]
        exact ⟨hph, (evolves_typeAt hE qa qb).trans hps'⟩
      · exact lper (pa, pb) hpr hph hps'

/-! ## The main flood induction -/

theorem flood_go_spec_all (g0 : Game) (x0 y0 : Nat) (hco : Coherent g0) :
    ∀ fuel, GoSpec g0 x0 y0 fuel := by
  intro fuel
  induction fuel with
  | zero =>
    intro g x y hE hr hx hy hH
    exfalso
    rcases hH with h | ⟨hhid, hle⟩
    · exact absurd h (Nat.not_lt_zero _)
    · have hidx : x + y * g.width < g.tiles.length := by
        rw [evolves_width hE, evolves_length hE, hco.2.1]
        exact toIdx_lt_of_bounds _ _ _ _ hx hy
      have := hiddenCount_pos_of_hidden g (x + y * g.width) hidx hhid
      omega
  | succ fuel ih =>
    intro g x y hE hr hx hy hH
    have hw : g.width = g0.width := evolves_width hE
    have hh : g.height = g0.height := evolves_height hE
    have hidx0 : x + y * g0.width < g0.tiles.length := by
      rw [hco.2.1]
      exact toIdx_lt_of_bounds _ _ _ _ hx hy
    have hidx : x + y * g.width < g.tiles.length := by
      rw [hw, evolves_length hE]
      exact hidx0
    have hjw : x + y * g.width = x + y * g0.width := by rw [hw]
    have htx : (tileAt g.tiles (x + y * g.width)).x = x := by
      rw [hjw, ← (hE.1.2.2.2 (x + y * g0.width)).1,
        (hco.2.2 (x + y * g0.width) hidx0).1, toIdx_mod g0.width x y hx]
    have hty : (tileAt g.tiles (x + y * g.width)).y = y := by
      rw [hjw, ← (hE.1.2.2.2 (x + y * g0.width)).2.1,
        (hco.2.2 (x + y * g0.width) hidx0).2, toIdx_div g0.width x y hx]
    by_cases hmc : (tileAt g.tiles (x + y * g.width)).mine_count ≠ 0
    · -- positive count: reveal the target and stop
      have hmc0ne : g0.mcAt x y ≠ 0 := by
        rw [← evolves_mcAt hE]
        exact hmc
      rw [flood_go_succ_pos fuel g x y hmc]
      refine ⟨evolves_set_visible hco hE x y hx hy hr, hiddenCount_g1_le g x y,
        visAt_g1_self g x y hidx, ?_, ?_, ?_, ?_⟩
      · intro a b ha hb hv
        by_cases hab : x + y * g.width = a + b * g.width
        · rw [visAt_update, ← hab, tileAt_set_self _ _ _ hidx]
        · rw [visAt_g1_other g x y a b hab]
          exact hv
      · intro a b ha hb hne
        by_cases hab : x + y * g.width = a + b * g.width
        · obtain ⟨h1, h2⟩ := toIdx_inj g.width x y a b (hw ▸ hx) (hw ▸ ha) hab
          refine ⟨Or.inr ⟨h1.symm, h2.symm⟩, ?_⟩
          rw [visAt_update, ← hab, tileAt_set_self _ _ _ hidx]
        · rw [visAt_g1_other g x y a b hab] at hne
          exact absurd rfl hne
      · intro hmc0 p hp hph hps
        exact absurd hmc0 hmc0ne
      · intro u v hu hv h1 h2 hmcu p hp hph hps
        by_cases hab : x + y * g.width = u + v * g.width
        · obtain ⟨rfl, rfl⟩ := toIdx_inj g.width x y u v (hw ▸ hx) (hw ▸ hu) hab
          exact absurd hmcu hmc0ne
        · rw [visAt_g1_other g x y u v hab] at h1
          exact absurd h1 h2
    · -- zero count: reveal and expand through the neighbors
      have hmc0 : g0.mcAt x y = 0 := by
        rw [← evolves_mcAt hE]
        exact not_ne_iff.mp hmc
      have hnbrs_eq : nbrs g.width g.height x y = nbrs g0.width g0.height x y := by
        rw [hw, hh]
      rw [flood_go_succ_zero fuel g x y hmc, htx, hty]
      have hg1E : Evolves g0 x0 y0
          { g with tiles := g.tiles.set (x + y * g.width) ({ tileAt g.tiles (x + y * g.width) with tile_visibility := TileVisibility.Visible }) } :=
        evolves_set_visible hco hE x y hx hy hr
      have hg1hc : hiddenCount
          { g with tiles := g.tiles.set (x + y * g.width) ({ tileAt g.tiles (x + y * g.width) with tile_visibility := TileVisibility.Visible }) } ≤ fuel := by
        rcases hH with h | ⟨hhid, hle⟩
        · have := hiddenCount_g1_le g x y
          omega
        · have := hiddenCount_g1_lt g x y hidx hhid
          omega
      have hps : ∀ p, p ∈ nbrs g.width g.height x y →
          p.1 < g0.width ∧ p.2 < g0.height ∧
          (g0.visAt p.1 p.2 = TileVisibility.Hidden →
            g0.typeAt p.1 p.2 = TileType.Safe → FloodReach g0 x0 y0 p.1 p.2) := by
        intro p hp
        obtain ⟨pa, pb⟩ := p
        rw [hnbrs_eq] at hp
        obtain ⟨h1, h2, -⟩ := (mem_nbrs _ _ x y pa pb hx hy).mp hp
        exact ⟨h1, h2, fun hph hps' => FloodReach.step hr hmc0 hp hph hps'⟩
      obtain ⟨lE, lhc, lmono, lframe, lper, lclosed⟩ :=
        flood_list_spec g0 x0 y0 fuel ih (nbrs g.width g.height x y) _ hg1E hg1hc hps
      have hv1self : Game.visAt
          { g with tiles := g.tiles.set (x + y * g.width) ({ tileAt g.tiles (x + y * g.width) with tile_visibility := TileVisibility.Visible }) } x y =
          TileVisibility.Visible := visAt_g1_self g x y hidx
      refine ⟨lE, ?_, lmono x y hx hy hv1self, ?_, ?_, ?_, ?_⟩
      · have := hiddenCount_g1_le g x y
        omega
      · -- monotonicity
        intro a b ha hb hv
        refine lmono a b ha hb ?_
        by_cases hab : x + y * g.width = a + b * g.width
        · rw [visAt_update, ← hab, tileAt_set_self _ _ _ hidx]
        · rw [visAt_g1_other g x y a b hab]
          exact hv
      · -- frame
        intro a b ha hb hne
        by_cases hab : x + y * g.width = a + b * g.width
        · obtain ⟨h1, h2⟩ := toIdx_inj g.width x y a b (hw ▸ hx) (hw ▸ ha) hab
          refine ⟨Or.inr ⟨h1.symm, h2.symm⟩, ?_⟩
          subst h1; subst h2
          exact lmono x y hx hy hv1self
        · have hsame := visAt_g1_other g x y a b hab
          rw [← hsame] at hne
          obtain ⟨hhid1, hvis1⟩ := lframe a b ha hb hne
          rw [hsame] at hhid1
          exact ⟨Or.inl hhid1, hvis1⟩
      · -- neighbor completeness
        intro hmc0' p hp hph hps'
        obtain ⟨pa, pb⟩ := p
        have hpmem : (pa, pb) ∈ nbrs g.width g.height x y := by
          rw [hnbrs_eq]; exact hp
        obtain ⟨hpw, hph', -⟩ := (mem_nbrs _ _ x y pa pb hx hy).mp hp
        have hne : ¬ (pa = x ∧ pb = y) := by
          rintro ⟨rfl, rfl⟩
          exact nbrs_self_not_mem g0.width g0.height pa pb hp
        have hab : x + y * g.width ≠ pa + pb * g.width := by
          intro he
          obtain ⟨h1, h2⟩ := toIdx_inj g.width x y pa pb (hw ▸ hx) (hw ▸ hpw) he
          exact hne ⟨h1.symm, h2.symm⟩
        refine lper (pa, pb) hpmem ?_ hps'
        rw [visAt_g1_other g x y pa pb hab]
        exact hph
      · -- NewClosed for the whole call
        intro u v hu hv hfin hnotg hmcu p hp hph hps'
        obtain ⟨pa, pb⟩ := p
        obtain ⟨hpw, hph2, -⟩ := (mem_nbrs _ _ u v pa pb hu hv).mp hp
        by_cases hab : x + y * g.width = u + v * g.width
        · obtain ⟨rfl, rfl⟩ := toIdx_inj g.width x y u v (hw ▸ hx) (hw ▸ hu) hab
          -- the newly revealed cell is the flood target itself
          have hpne : ¬ (pa = x ∧ pb = y) := by
            rintro ⟨rfl, rfl⟩
            exact nbrs_self_not_mem g0.width g0.height pa pb hp
          have hpab : x + y * g.width ≠ pa + pb * g.width := by
            intro he
            obtain ⟨h1, h2⟩ := toIdx_inj g.width x y pa pb (hw ▸ hx) (hw ▸ hpw) he
            exact hpne ⟨h1.symm, h2.symm⟩
          have hpmem : (pa, pb) ∈ nbrs g.width g.height x y := by
            rw [hnbrs_eq]; exact hp
          have hsame := visAt_g1_other g x y pa pb hpab
          rcases hE.2 pa pb hpw hph2 with hegal | ⟨hvis, -⟩
          · -- the neighbor kept its g0 visibility, so it is Hidden in g1
            refine lper (pa, pb) hpmem ?_ hps'
            rw [hsame, hegal]
            exact hph
          · -- the neighbor was already revealed during this flood
            refine lmono pa pb hpw hph2 ?_
            rw [hsame]
            exact hvis
        · have hsame := visAt_g1_other g x y u v hab
          rw [← hsame] at hnotg
          exact lclosed u v hu hv hfin hnotg hmcu (pa, pb) hp hph hps'

/-! ## Claim C1: flood reveal reveals exactly the closure -/

/-- C1: for every coherent board and in-bounds Safe cell `(x, y)`,
`flood_reveal x y` makes Visible exactly the tiles of the flood closure —
the clicked tile plus, when counts are zero, everything reachable by
stepping to Hidden Safe neighbors, halting at positive-count tiles — and
every tile outside the closure (Marked tiles included) keeps its previous
visibility. -/
theorem flood_reveal_exact_closure (g : Game) (x y : Nat) (hco : Coherent g)
    (hx : x < g.width) (hy : y < g.height)
    (hsafe : g.typeAt x y = TileType.Safe) :
    ∀ a b, a < g.width → b < g.height →
      (FloodReach g x y a b →
        (g.flood_reveal x y).visAt a b = TileVisibility.Visible) ∧
      (¬ FloodReach g x y a b →
        (g.flood_reveal x y).visAt a b = g.visAt a b) := by
  have hE0 : Evolves g x y g := ⟨sameSkeleton_refl g, fun a b _ _ => Or.inl rfl⟩
  obtain ⟨hEv, hhc, hvis, hmono, hframe, hnbr, hclosed⟩ :=
    flood_go_spec_all g x y hco (hiddenCount g + 1) g x y hE0 FloodReach.start hx hy
      (Or.inl (Nat.lt_succ_self _))
  have hcomplete : ∀ a b, FloodReach g x y a b →
      (Game.flood_reveal_go (hiddenCount g + 1) g x y).visAt a b =
        TileVisibility.Visible := by
    intro a b hreach
    induction hreach with
    | start => exact hvis
    | @step u v c d hr hmc hnb hph hps ihr =>
      obtain ⟨hu, hv⟩ := floodReach_bounds hx hy hr
      by_cases hvisg : g.visAt u v = TileVisibility.Visible
      · cases hr with
        | start => exact hnbr hmc (c, d) hnb hph hps
        | step hr2 hmc2 hnb2 hph2 hps2 =>
          rw [hph2] at hvisg
          exact TileVisibility.noConfusion hvisg
      · exact hclosed u v hu hv ihr hvisg hmc (c, d) hnb hph hps
  intro a b ha hb
  refine ⟨hcomplete a b, ?_⟩
  intro hnreach
  rcases hEv.2 a b ha hb with he | ⟨-, hre⟩
  · exact he
  · exact absurd hre hnreach

/-- Witness for C1: flooding from the zero-count corner `(0, 0)` of the
generated 3×3 board with one Mine at `(2, 2)`. -/
theorem flood_reveal_exact_closure_witness :
    (Coherent board33 ∧ (0 : Nat) < board33.width ∧ (0 : Nat) < board33.height ∧
      board33.typeAt 0 0 = TileType.Safe) ∧
    (∀ a b, a < board33.width → b < board33.height →
      (FloodReach board33 0 0 a b →
        (board33.flood_reveal 0 0).visAt a b = TileVisibility.Visible) ∧
      (¬ FloodReach board33 0 0 a b →
        (board33.flood_reveal 0 0).visAt a b = board33.visAt a b)) :=
  ⟨⟨by unfold Coherent; decide, by decide, by decide, by decide⟩,
    flood_reveal_exact_closure board33 0 0 (by unfold Coherent; decide) (by decide)
      (by decide) (by decide)⟩
